import Mathlib

/-!
# metego: forecast request validation, forecast formatting, credential loading, orchestration

A shallow embedding of `openweather/openweather.go` and `main.go`, and the properties of
the specification proved or refuted on it.

* A Go `string` is a sequence of bytes (`GoString`); `len`, `s[:10]` and `s[11:]` are byte
  operations on it. String constants of the source are the UTF-8 bytes of the literal (`lit`).
* A Go call ends by returning a value, by returning an `error`, by a run-time panic, or in
  `log.Fatal` (`Outcome`).
* `float32` values are kept abstract (a type parameter `F`); how `fmt` prints them under
  `%v` and `%.2f` is a parameter (`FloatFmt`).
* Go's `int` is 64 bits wide. The one product of the source, the capacity hint `days * 8`,
  wraps around (`wrapInt`); the counter of date changes grows by one per loop pass, never
  beyond the length of the input, and is an `Int`.
* `make([]string, 0, n)` fails when `n` is negative or larger than what the runtime can
  allocate; that limit depends on the machine and is a parameter (`maxCap`).
* The libraries outside the repository are parameters: the file system and line scanner
  (`FileRead`), the HTTP client with the JSON decoder, and the notification provider
  (`Env`). A run of `main` is the list of its effects (`Event`) and its exit status.
-/

set_option autoImplicit false
set_option maxRecDepth 100000

namespace Metego

/-! ## Go strings -/

/-- A Go string: an immutable sequence of bytes. -/
abbrev GoString := List UInt8

/-- The bytes of a string constant of the source (Go source text is UTF-8). -/
def lit (s : String) : GoString := s.toUTF8.data.toList

/-! ## Errors and outcomes -/

/-- The `error` values the program handles. -/
inductive Err where
  /-- `ErrEmptyToken = errors.New("openweather: empty token")` -/
  | ErrEmptyToken
  /-- `ErrEmptyCity = errors.New("openweather: empty City")` -/
  | ErrEmptyCity
  /-- `ErrNumberDays = errors.New("openweather: days value should be between 1 and 5 (included)")` -/
  | ErrNumberDays
  /-- A value made by `fmt.Errorf` with a constant text. -/
  | errorf (msg : String)
  /-- An error handed back by a library outside the repository (`os`, `net/http`,
  `encoding/json`, `pushover`). -/
  | external (msg : String)
  deriving DecidableEq, Repr

/-- The text of an error (`err.Error()`). -/
def Err.Error : Err → String
  | .ErrEmptyToken => "openweather: empty token"
  | .ErrEmptyCity => "openweather: empty City"
  | .ErrNumberDays => "openweather: days value should be between 1 and 5 (included)"
  | .errorf msg => msg
  | .external msg => msg

/-- How a call of a Go function ends: `ok v` is `return v, nil`, `err e` is `return nil, e`,
`panic` is a run-time panic (index or slice bounds out of range, capacity out of range) or
a fatal error of the runtime (out of memory), `fatal e` is `log.Fatal(e)`, which prints `e`
and ends the process with status 1. -/
inductive Outcome (α : Type) where
  | ok (v : α)
  | err (e : Err)
  | panic
  | fatal (e : Err)
  deriving DecidableEq, Repr

/-! ## `openweather` data model -/

/-- `OpenWeather`: an app using the API. -/
structure OpenWeather where
  token : GoString
  deriving DecidableEq, Repr

/-- `CityForecast`: a city and a number of days. -/
structure CityForecast where
  City : GoString
  Days : Int
  deriving DecidableEq, Repr

/-- `Main`: humidity and temperature of an entry, both `float32`. -/
structure Main (F : Type) where
  Humidity : F
  Temp : F
  deriving DecidableEq, Repr

/-- `Weather`: one weather description of an entry. -/
structure Weather where
  Description : GoString
  deriving DecidableEq, Repr

/-- `Entry`: one element of the `list` of the API response. -/
structure Entry (F : Type) where
  DtTxt : GoString
  Main : Main F
  Weather : List Weather
  deriving DecidableEq, Repr

/-- `JSONWeather`: the top level of the API response. -/
structure JSONWeather (F : Type) where
  List : List (Entry F)
  deriving DecidableEq, Repr

/-- How `fmt.Sprintf` prints a `float32`: `v` under the verb `%v`, `f2` under `%.2f`. -/
structure FloatFmt (F : Type) where
  v : F → GoString
  f2 : F → GoString

/-! ## `New`, `NewCityForecast` -/

/-- `New(token)`: `ErrEmptyToken` for the empty token, an `OpenWeather` otherwise. -/
def New (token : GoString) : Outcome OpenWeather :=
  if token = [] then .err .ErrEmptyToken
  else .ok ⟨token⟩

/-- `NewCityForecast(city, days)`. -/
def NewCityForecast (city : GoString) (days : Int) : Outcome CityForecast :=
  if city = [] then .err .ErrEmptyCity
  else if days < 1 ∨ days > 5 then .err .ErrNumberDays
  else .ok ⟨city, days⟩

/-! ## `formatForecast` -/

/-- The local variables of `formatForecast` that live across loop iterations.
(`concatEntry` is assigned before each of its uses, so it carries nothing between
iterations.) -/
structure LoopState where
  forecast : List GoString
  daysCounter : Int
  previousDate : GoString
  dayForecast : GoString
  deriving DecidableEq, Repr

/-- What a pass through a loop body leaves: the loop goes on with a state, the function
returns `&forecast, nil`, or the function panics. -/
inductive Flow where
  | next (σ : LoopState)
  | ret (forecast : List GoString)
  | panic
  deriving DecidableEq, Repr

/-- The body of the inner loop `for _, desc := range entry.Weather` (lines 119-138) for one
description. -/
def descStep {F : Type} (fmt : FloatFmt F) (days : Int) (date hour : GoString)
    (humidity temperature : F) (σ : LoopState) (desc : Weather) : Flow :=
  let description := desc.Description
  if date ≠ σ.previousDate then
    let daysCounter := σ.daysCounter + 1
    -- Sprintf("%v \n%v | %v - h:%v%% - %.2f°C\n", date, hour, description, humidity, temperature)
    let concatEntry := date ++ lit " \n" ++ hour ++ lit " | " ++ description ++ lit " - h:"
      ++ fmt.v humidity ++ lit "% - " ++ fmt.f2 temperature ++ lit "°C\n"
    let previousDate := date
    let forecast := if σ.dayForecast ≠ [] then σ.forecast ++ [σ.dayForecast] else σ.forecast
    if daysCounter > days then .ret forecast
    else .next ⟨forecast, daysCounter, previousDate, concatEntry⟩
  else
    -- Sprintf("%v | %v - h:%v%% - %.2f°C\n", hour, description, humidity, temperature)
    let concatEntry := hour ++ lit " | " ++ description ++ lit " - h:"
      ++ fmt.v humidity ++ lit "% - " ++ fmt.f2 temperature ++ lit "°C\n"
    .next { σ with dayForecast := σ.dayForecast ++ concatEntry }

/-- The inner loop over the descriptions of one entry. -/
def descLoop {F : Type} (fmt : FloatFmt F) (days : Int) (date hour : GoString)
    (humidity temperature : F) : LoopState → List Weather → Flow
  | σ, [] => .next σ
  | σ, desc :: rest =>
    match descStep fmt days date hour humidity temperature σ desc with
    | .next σ' => descLoop fmt days date hour humidity temperature σ' rest
    | .ret forecast => .ret forecast
    | .panic => .panic

/-- The body of the outer loop `for _, entry := range p.List` (lines 112-139) for one entry.
`dtTxt[:10]` panics on fewer than 10 bytes and `dtTxt[11:]` on fewer than 11. -/
def entryStep {F : Type} (fmt : FloatFmt F) (days : Int) (σ : LoopState) (entry : Entry F) :
    Flow :=
  let dtTxt := entry.DtTxt
  if dtTxt.length < 10 then .panic
  else
    let date := dtTxt.take 10
    if dtTxt.length < 11 then .panic
    else
      let hour := dtTxt.drop 11
      let humidity := entry.Main.Humidity
      let temperature := entry.Main.Temp
      descLoop fmt days date hour humidity temperature σ entry.Weather

/-- The outer loop over the entries, followed by the statement after it (line 141). -/
def entryLoop {F : Type} (fmt : FloatFmt F) (days : Int) :
    LoopState → List (Entry F) → Outcome (List GoString)
  | _, [] => .err (.errorf "formatForecast didnt end properly, shouldve returned earlier")
  | σ, entry :: rest =>
    match entryStep fmt days σ entry with
    | .next σ' => entryLoop fmt days σ' rest
    | .ret forecast => .ok forecast
    | .panic => .panic

/-- The value of an `int` result on a 64-bit platform: the integer wrapped around into
`-2^63 ≤ n < 2^63`. -/
def wrapInt (n : Int) : Int := (n + 2 ^ 63) % 2 ^ 64 - 2 ^ 63

/-- `formatForecast(p, days)`. `forecastLen := days * 8` wraps around in 64 bits, and
`make([]string, 0, forecastLen)` fails when the capacity is negative or larger than
`maxCap`, the largest capacity the runtime can allocate on the machine; otherwise it
gives the empty slice. The zero values of the other variables are `0` and `""`. -/
def formatForecast {F : Type} (fmt : FloatFmt F) (maxCap : Int) (p : JSONWeather F)
    (days : Int) : Outcome (List GoString) :=
  let forecastLen := wrapInt (days * 8)
  if forecastLen < 0 ∨ maxCap < forecastLen then .panic
  else entryLoop fmt days ⟨[], 0, [], []⟩ p.List

/-! ## `Forecast` -/

/-- `APIEndpoint`, the base endpoint of the forecast API. -/
def APIEndpoint : GoString := lit "http://api.openweathermap.org/data/2.5/forecast"

/-- What the program does to the outside world, in the order it does it. -/
inductive Event where
  /-- `myClient.Get(url)` -/
  | httpGet (url : GoString)
  /-- `sugar.Errorf`: a line of the log at error level. -/
  | logError (text : GoString)
  /-- `sugar.Infof`: a line of the log at info level. -/
  | logInfo (text : GoString)
  /-- `sugar.Debugf`, with the logger at debug level. -/
  | logDebug (text : GoString)
  /-- `log.Fatal`: the line it prints before the process exits. -/
  | logFatal (text : GoString)
  /-- `fmt.Println(s)` -/
  | println (s : GoString)
  /-- `pushoverApp.SendMessage(message, recipient)`: the call, whatever it returns. -/
  | send (app recipient body title : GoString)
  deriving DecidableEq, Repr

/-- `(p *OpenWeather) Forecast(cf)`: one GET of the URL built from the endpoint, the city
and the token, then `formatForecast` on the decoded response. `getJSON` stands for the HTTP
client and the JSON decoder: what the GET of a URL decodes to, or the error. -/
def Forecast {F : Type} (fmt : FloatFmt F) (maxCap : Int)
    (getJSON : GoString → Except Err (JSONWeather F)) (p : OpenWeather) (cf : CityForecast) :
    List Event × Outcome (List GoString) :=
  -- Sprintf("%s?q=%s&units=metric&appid=%s", APIEndpoint, cf.City, p.token)
  let url := APIEndpoint ++ lit "?q=" ++ cf.City ++ lit "&units=metric&appid=" ++ p.token
  match getJSON url with
  | .error err => ([.httpGet url], .err err)
  | .ok weatherJSON => ([.httpGet url], formatForecast fmt maxCap weatherJSON cf.Days)

/-! ## `main.go`: credentials -/

/-- A Go `map[string]string`, as the list of its key-value pairs, no key twice. -/
abbrev GoMap := List (GoString × GoString)

/-- The value stored under a key, if any. -/
def GoMap.find (m : GoMap) (k : GoString) : Option GoString := List.lookup k m

/-- `m[k]`: the value stored under `k`, the empty string when `k` is absent. -/
def GoMap.get (m : GoMap) (k : GoString) : GoString := (m.find k).getD []

/-- `m[k] = v` -/
def GoMap.set (m : GoMap) (k v : GoString) : GoMap := (k, v) :: m.filter (fun x => x.1 ≠ k)

/-- `strings.Split(s, " ")`: the substrings of `s` between its spaces; one more substring
than there are spaces. -/
def Split : GoString → List GoString
  | [] => [[]]
  | b :: rest =>
    if b = 32 then [] :: Split rest
    else
      match Split rest with
      | [] => [[b]]
      | field :: fields => (b :: field) :: fields

/-- `sliceToStrings(p)`: `p[0], p[1]`; an index out of range panics. -/
def sliceToStrings (p : List GoString) : Outcome (GoString × GoString) :=
  match p with
  | a :: b :: _ => .ok (a, b)
  | _ => .panic

/-- What `os.Open` and the `bufio.Scanner` give for a file name: the open fails, or the
scanner yields lines and then stops, at the end of the file or on an error of its own. -/
inductive FileRead where
  | openError (err : Err)
  | scanned (lines : List GoString) (scanErr : Option Err)
  deriving DecidableEq, Repr

/-- The loop `for scanner.Scan()` of `getTokens` (lines 121-124). -/
def getTokensLoop : GoMap → List GoString → Outcome GoMap
  | tokensMap, [] => .ok tokensMap
  | tokensMap, text :: rest =>
    match sliceToStrings (Split text) with
    | .ok (tokenName, token) => getTokensLoop (tokensMap.set tokenName token) rest
    | .err e => .err e
    | .panic => .panic
    | .fatal e => .fatal e

/-- `getTokens(filename)`. Both error branches call `log.Fatal` before their `return`. -/
def getTokens (openFile : GoString → FileRead) (filename : GoString) : Outcome GoMap :=
  match openFile filename with
  | .openError err => .fatal err
  | .scanned lines scanErr =>
    match getTokensLoop [] lines with
    | .ok tokensMap =>
      match scanErr with
      | some err => .fatal err
      | none => .ok tokensMap
    | .err e => .err e
    | .panic => .panic
    | .fatal e => .fatal e

/-! ## `main.go`: the orchestrator -/

/-- The command-line options. -/
structure Flags where
  city : GoString
  days : Int
  debug : Bool
  sendPushover : Bool
  deriving DecidableEq, Repr

/-- How the process ends: `os.Exit(code)` or the end of `main` (status 0), or a panic or
fatal error of the runtime. -/
inductive Status where
  | exit (code : Nat)
  | panic
  deriving DecidableEq, Repr

/-- What surrounds a run of the program: the machine (`maxCap`, the largest capacity `make`
can allocate), the credential file, the weather provider and the notification provider.
`sendMessage n app recipient body title` is the error of the `n`-th call of `SendMessage`
in the run (counted from 0), `none` when it succeeds. -/
structure Env (F : Type) where
  maxCap : Int
  openFile : GoString → FileRead
  getJSON : GoString → Except Err (JSONWeather F)
  sendMessage : Nat → GoString → GoString → GoString → GoString → Option Err

/-- The forecast title of line 71: `Sprintf("Weather forecast for %s (%d day(s))", *city, *days)`. -/
def forecastTitle (city : GoString) (days : Int) : GoString :=
  lit "Weather forecast for " ++ city ++ lit " (" ++ lit (toString days) ++ lit " day(s))"

/-- The loop of lines 97-104: one message without title per remaining day-summary, `n`
calls of `SendMessage` having been made before. -/
def sendRest {F : Type} (env : Env F) (pushoverApp recipient : GoString) :
    Nat → List GoString → List Event × Status
  | _, [] => ([], .exit 0)
  | n, v :: rest =>
    -- message = pushover.NewMessage(v)
    match env.sendMessage n pushoverApp recipient v [] with
    | some err =>
      ([.send pushoverApp recipient v [],
        .logError (lit "Error when sending message to Pushover : " ++ lit err.Error ++ lit "\n")],
       .exit 1)
    | none =>
      let r := sendRest env pushoverApp recipient (n + 1) rest
      (.send pushoverApp recipient v [] :: r.1, r.2)

/-- Lines 70-105 of `main`: what happens once `Forecast` has returned `forecastSlice`. -/
def report {F : Type} (env : Env F) (flags : Flags) (pushoverApp recipient : GoString)
    (forecastSlice : List GoString) : List Event × Status :=
  let title := forecastTitle flags.city flags.days
  let logged : List Event :=
    .logInfo title ::
      (if flags.debug then
        [.logDebug (lit "Forecast len=\x27" ++ lit (toString forecastSlice.length) ++ lit "\x27")]
      else [])
  match forecastSlice with
  | [] => (logged, .panic)
  | first :: others =>
    let printed : List Event := .println first :: others.map .println
    if flags.sendPushover then
      let info : Event := .logInfo (lit "Sending message to pushover")
      -- message := pushover.NewMessageWithTitle((*forecastSlice)[0], forecastTitle)
      match env.sendMessage 0 pushoverApp recipient first title with
      | some err =>
        (logged ++ printed ++ [info, .send pushoverApp recipient first title,
          .logError (lit "Error when sending message to Pushover : " ++ lit err.Error
            ++ lit "\n")],
         .exit 1)
      | none =>
        let r := sendRest env pushoverApp recipient 1 others
        (logged ++ printed ++ [info, .send pushoverApp recipient first title] ++ r.1,
         r.2)
    else (logged ++ printed, .exit 0)

/-- Lines 48-105 of `main`: what happens once `getTokens` has returned the credential map.
`pushover.New` and `pushover.NewRecipient` return no error: they keep the token they are
given. -/
def mainWithTokens {F : Type} (fmt : FloatFmt F) (env : Env F) (flags : Flags)
    (tokens : GoMap) : List Event × Status :=
  let pushoverApp := tokens.get (lit "pushover")
  let recipient := tokens.get (lit "recipient")
  match New (tokens.get (lit "openweather")) with
  | .err err =>
    ([.logError (lit "Error when creating an OpenWeather app : " ++ lit err.Error ++ lit "\n")],
     .exit 1)
  | .panic => ([], .panic)
  | .fatal err => ([.logFatal (lit err.Error)], .exit 1)
  | .ok openweatherApp =>
    match NewCityForecast flags.city flags.days with
    | .err err =>
      ([.logError (lit "Error when creating a CityForecast : " ++ lit err.Error ++ lit "\n")],
       .exit 1)
    | .panic => ([], .panic)
    | .fatal err => ([.logFatal (lit err.Error)], .exit 1)
    | .ok cityForecast =>
      match Forecast fmt env.maxCap env.getJSON openweatherApp cityForecast with
      | (events, .err err) =>
        (events ++ [.logError (lit "Error when getting Forecast : " ++ lit err.Error
          ++ lit "\n")], .exit 1)
      | (events, .panic) => (events, .panic)
      | (events, .fatal err) => (events ++ [.logFatal (lit err.Error)], .exit 1)
      | (events, .ok forecastSlice) =>
        let r := report env flags pushoverApp recipient forecastSlice
        (events ++ r.1, r.2)

/-- The function `main`, the options parsed into `flags`. -/
def main {F : Type} (fmt : FloatFmt F) (env : Env F) (flags : Flags) : List Event × Status :=
  match getTokens env.openFile (lit "tokens.txt") with
  | .err err =>
    ([.logError (lit "Error when getting tokens from file : " ++ lit err.Error ++ lit "\n")],
     .exit 1)
  | .panic => ([], .panic)
  | .fatal err => ([.logFatal (lit err.Error)], .exit 1)
  | .ok tokens => mainWithTokens fmt env flags tokens

/-- The messages handed to `SendMessage` in a run, in order: body and title. -/
def sentMessages (events : List Event) : List (GoString × GoString) :=
  events.filterMap (fun ev =>
    match ev with
    | .send _ _ body title => some (body, title)
    | _ => none)

/-- Whether a run made a call to the weather provider. -/
def fetched (events : List Event) : Bool :=
  events.any (fun ev =>
    match ev with
    | .httpGet _ => true
    | _ => false)

/-! ## What the formatter is specified to produce -/

/-- The date part of an entry: the first 10 bytes of its timestamp. -/
def entryDate {F : Type} (e : Entry F) : GoString := e.DtTxt.take 10

/-- The time part of an entry: its timestamp from byte 11 onward. -/
def entryTime {F : Type} (e : Entry F) : GoString := e.DtTxt.drop 11

/-- The line of one description of an entry, as the specification words it:
`T | D - h:H% - C°C` and a newline. -/
def entryLine {F : Type} (fmt : FloatFmt F) (e : Entry F) (w : Weather) : GoString :=
  entryTime e ++ lit " | " ++ w.Description ++ lit " - h:" ++ fmt.v e.Main.Humidity
    ++ lit "% - " ++ fmt.f2 e.Main.Temp ++ lit "°C" ++ lit "\n"

/-- The lines of an entry: one per description, in the order of the descriptions. -/
def entryLines {F : Type} (fmt : FloatFmt F) (e : Entry F) : List GoString :=
  e.Weather.map (entryLine fmt e)

/-- A timestamp long enough for `dtTxt[:10]` and `dtTxt[11:]`. -/
def wellFormed {F : Type} (e : Entry F) : Bool := decide (11 ≤ e.DtTxt.length)

/-- The dates of the entries in input order, a run of equal dates counted once. -/
def dateRuns {F : Type} (es : List (Entry F)) : List GoString :=
  (es.map entryDate).destutter (· ≠ ·)

/-- Entries of the same date are consecutive: whenever two entries bear the same date,
every entry between them bears it too. -/
def SameDateConsecutive {F : Type} (es : List (Entry F)) : Prop :=
  ∀ (l₁ l₂ l₃ l₄ : List (Entry F)) (a b c : Entry F),
    es = l₁ ++ a :: (l₂ ++ b :: (l₃ ++ c :: l₄)) → entryDate a = entryDate c →
      entryDate b = entryDate a

/-- The number of distinct dates among the entries. -/
def distinctDates {F : Type} (es : List (Entry F)) : Nat := (es.map entryDate).dedup.length

/-- The day-summary of date `d`: the date, a space and a newline, then the lines of all
entries of that date in input order. -/
def dateSummary {F : Type} (fmt : FloatFmt F) (es : List (Entry F)) (d : GoString) :
    GoString :=
  d ++ lit " \n" ++ ((es.filter (fun e => entryDate e = d)).flatMap (entryLines fmt)).flatten

/-! ## What the credential loader is specified to produce -/

/-- The first space-separated field of a line. -/
def firstField (l : GoString) : GoString := l.takeWhile (· ≠ 32)

/-- The second space-separated field of a line that has a space. -/
def secondField (l : GoString) : GoString :=
  ((l.dropWhile (· ≠ 32)).drop 1).takeWhile (· ≠ 32)

/-! ## The formatter as one loop over dated items -/

/-- The (entry, description) pairs of an entry list in input order, each with its date. -/
def datedPairs {F : Type} (es : List (Entry F)) : List (GoString × (Entry F × Weather)) :=
  es.flatMap (fun e => e.Weather.map (fun w => (entryDate e, (e, w))))

/-- The lines of an entry list in input order, each with its date. -/
def datedLines {F : Type} (fmt : FloatFmt F) (es : List (Entry F)) :
    List (GoString × GoString) :=
  (datedPairs es).map (fun x => (x.1, entryLine fmt x.2.1 x.2.2))

/-- Groups dated items into runs of equal date, the run of date `d` collected so far
being `acc`. -/
def groupFrom {α : Type} (d : GoString) (acc : List α) :
    List (GoString × α) → List (GoString × List α)
  | [] => [(d, acc)]
  | (d', a) :: rest =>
    if d' = d then groupFrom d (acc ++ [a]) rest else (d, acc) :: groupFrom d' [a] rest

/-- Groups dated items into maximal runs of equal date. -/
def groupDays {α : Type} : List (GoString × α) → List (GoString × List α)
  | [] => []
  | (d, a) :: rest => groupFrom d [a] rest

/-- The text of a run of lines: the date, a space and a newline, then the lines. -/
def daySummary (g : GoString × List GoString) : GoString :=
  g.1 ++ lit " \n" ++ g.2.flatten

/-- One pass of the loop body on a dated line. -/
def pairStep (days : Int) (σ : LoopState) (x : GoString × GoString) : Flow :=
  if x.1 ≠ σ.previousDate then
    let forecast := if σ.dayForecast ≠ [] then σ.forecast ++ [σ.dayForecast] else σ.forecast
    if σ.daysCounter + 1 > days then .ret forecast
    else .next ⟨forecast, σ.daysCounter + 1, x.1, x.1 ++ lit " \n" ++ x.2⟩
  else .next { σ with dayForecast := σ.dayForecast ++ x.2 }

/-- The loop over dated lines. -/
def pairLoop (days : Int) : LoopState → List (GoString × GoString) → Flow
  | σ, [] => .next σ
  | σ, x :: rest =>
    match pairStep days σ x with
    | .next σ' => pairLoop days σ' rest
    | .ret forecast => .ret forecast
    | .panic => .panic

/-! ## Sample data -/

/-- Prints a number given in hundredths the way `%v` prints it: no trailing zeros. -/
def centiV (n : Nat) : GoString :=
  lit (Nat.repr (n / 100)) ++
    (if n % 100 = 0 then [] else if n % 10 = 0 then lit ("." ++ Nat.repr (n % 100 / 10))
     else lit ("." ++ Nat.repr (n % 100 / 10) ++ Nat.repr (n % 10)))

/-- Prints a number given in hundredths with two decimal places, as `%.2f` does. -/
def centiF2 (n : Nat) : GoString :=
  lit (Nat.repr (n / 100) ++ "." ++ Nat.repr (n % 100 / 10) ++ Nat.repr (n % 10))

/-- A capacity limit for samples: 2^44 string headers of 16 bytes fill the 2^48 bytes a
64-bit Linux runtime can address. -/
def sampleCap : Int := 2 ^ 44

/-- A number printer for samples whose humidity and temperature are given in hundredths. -/
def sampleFmt : FloatFmt Nat := ⟨centiV, centiF2⟩

/-- A sample entry. -/
def sampleEntry (ts : String) (humidity temp : Nat) (descs : List String) : Entry Nat :=
  ⟨lit ts, ⟨humidity, temp⟩, descs.map (fun d => ⟨lit d⟩)⟩

/-- An entry with two descriptions. -/
def twoDescriptions : Entry Nat :=
  sampleEntry "2024-01-01 12:00:00" 8050 1533 ["clear sky", "few clouds"]

/-- Entries of the same day, of the next and of the one after. -/
def laterEntries : List (Entry Nat) :=
  [sampleEntry "2024-01-01 15:00:00" 7900 1600 ["clear sky"],
   sampleEntry "2024-01-02 00:00:00" 9000 975 ["light rain"],
   sampleEntry "2024-01-03 00:00:00" 8800 1012 ["mist"]]

/-- Entries for three distinct dates, the first entry with two descriptions. -/
def threeDates : JSONWeather Nat := ⟨twoDescriptions :: laterEntries⟩

/-- Two entries per day for two days. -/
def twoByTwo : JSONWeather Nat :=
  ⟨[sampleEntry "2024-01-01 09:00:00" 8050 1533 ["clear sky"],
    sampleEntry "2024-01-01 12:00:00" 7900 1600 ["clear sky"],
    sampleEntry "2024-01-02 09:00:00" 9000 975 ["light rain"],
    sampleEntry "2024-01-02 12:00:00" 8800 1012 ["mist"]]⟩

/-- Four entries whose dates alternate between two days. -/
def alternating : JSONWeather Nat :=
  ⟨[sampleEntry "2024-01-01 09:00:00" 8050 1533 ["a"],
    sampleEntry "2024-01-02 09:00:00" 7900 1600 ["b"],
    sampleEntry "2024-01-01 12:00:00" 9000 975 ["c"],
    sampleEntry "2024-01-02 12:00:00" 8800 1012 ["d"]]⟩

/-- The messages the orchestrator is specified to send for a forecast: the first
day-summary under the title, each further one with no title. -/
def expectedMessages (title : GoString) : List GoString → List (GoString × GoString)
  | [] => []
  | first :: others => (first, title) :: others.map (fun v => (v, []))

/-- A weather provider that answers every request with the entries for three dates, and
a notification provider that accepts every message. -/
def sampleEnv : Env Nat :=
  ⟨sampleCap, fun _ => .scanned [lit "openweather key"] none, fun _ => .ok threeDates,
    fun _ _ _ _ _ => none⟩

/-- The same providers, the notification provider refusing the first message. -/
def refusingEnv : Env Nat :=
  ⟨sampleCap, fun _ => .scanned [lit "openweather key"] none, fun _ => .ok threeDates,
    fun n _ _ _ _ => if n = 0 then some (.external "refused") else none⟩

/-- The options `-city Paris -days 2`. -/
def parisFlags : Flags := ⟨lit "Paris", 2, false, false⟩

/-- The options `-city Paris -days 2 -pushover`. -/
def parisPushoverFlags : Flags := ⟨lit "Paris", 2, false, true⟩

/-- A credential map with the key "openweather" only. -/
def onlyOpenweather : GoMap := [(lit "openweather", lit "key")]

theorem lit_degree_newline : lit "°C\n" = lit "°C" ++ lit "\n" := by decide

theorem descStep_eq_pairStep {F : Type} (fmt : FloatFmt F) (days : Int) (e : Entry F)
    (σ : LoopState) (w : Weather) :
    descStep fmt days (entryDate e) (entryTime e) e.Main.Humidity e.Main.Temp σ w
      = pairStep days σ (entryDate e, entryLine fmt e w) := by
  simp only [descStep, pairStep, entryLine, lit_degree_newline, List.append_assoc]

theorem descLoop_eq_pairLoop {F : Type} (fmt : FloatFmt F) (days : Int) (e : Entry F)
    (σ : LoopState) (ws : List Weather) :
    descLoop fmt days (entryDate e) (entryTime e) e.Main.Humidity e.Main.Temp σ ws
      = pairLoop days σ (ws.map (fun w => (entryDate e, entryLine fmt e w))) := by
  induction ws generalizing σ with
  | nil => rfl
  | cons w ws ih =>
    simp only [descLoop, List.map_cons, pairLoop, descStep_eq_pairStep]
    cases pairStep days σ (entryDate e, entryLine fmt e w) with
    | next σ' => exact ih σ'
    | ret f => rfl
    | panic => rfl
theorem pairLoop_append (days : Int) (σ : LoopState) (a b : List (GoString × GoString)) :
    pairLoop days σ (a ++ b) =
      match pairLoop days σ a with
      | .next σ' => pairLoop days σ' b
      | .ret f => .ret f
      | .panic => .panic := by
  induction a generalizing σ with
  | nil => rfl
  | cons x a ih =>
    simp only [List.cons_append, pairLoop]
    cases pairStep days σ x with
    | next σ' => exact ih σ'
    | ret f => rfl
    | panic => rfl

theorem groupFrom_ne_nil {α : Type} (d : GoString) (acc : List α) (ps : List (GoString × α)) :
    groupFrom d acc ps ≠ [] := by
  induction ps generalizing d acc with
  | nil => simp [groupFrom]
  | cons x ps ih =>
    obtain ⟨d', a⟩ := x
    simp only [groupFrom]
    split
    · exact ih _ _
    · simp

theorem daySummary_ne_nil (g : GoString × List GoString) (h : g.1 ≠ []) : daySummary g ≠ [] := by
  simp [daySummary, h]

/-- The loop on dated lines, entered with a day buffer that holds the run `(d, acc)`. -/
theorem pairLoop_groupFrom (days : Int) (ps : List (GoString × GoString)) :
    ∀ (f : List GoString) (c : Int) (d : GoString) (acc : List GoString),
      c = (f.length : Int) + 1 → c ≤ days → d ≠ [] → (∀ x ∈ ps, x.1 ≠ []) →
      ∃ σ', pairLoop days ⟨f, c, d, daySummary (d, acc)⟩ ps =
        if days < ((f ++ (groupFrom d acc ps).map daySummary).length : Int) then
          .ret ((f ++ (groupFrom d acc ps).map daySummary).take days.toNat)
        else .next σ' := by
  induction ps with
  | nil =>
    intro f c d acc hc hcd hd _
    refine ⟨⟨f, c, d, daySummary (d, acc)⟩, ?_⟩
    simp only [pairLoop, groupFrom, List.map_cons, List.map_nil, List.length_append,
      List.length_singleton]
    rw [if_neg (by push_cast; omega)]
  | cons x ps ih =>
    intro f c d acc hc hcd hd hps
    obtain ⟨d', a⟩ := x
    have hd' : d' ≠ [] := hps (d', a) (List.mem_cons_self _ _)
    have hps' : ∀ x ∈ ps, x.1 ≠ [] := fun x hx => hps x (List.mem_cons_of_mem _ hx)
    have hne : daySummary (d, acc) ≠ [] := daySummary_ne_nil _ hd
    by_cases hdd : d' = d
    · subst hdd
      obtain ⟨σ', h⟩ := ih f c d' (acc ++ [a]) hc hcd hd hps'
      refine ⟨σ', ?_⟩
      have hs : daySummary (d', acc) ++ a = daySummary (d', acc ++ [a]) := by
        simp [daySummary, List.append_assoc]
      simp only [pairLoop, pairStep, ne_eq, not_true_eq_false, if_false, groupFrom, if_true, hs]
      exact h
    · by_cases hover : c + 1 > days
      · refine ⟨⟨[], 0, [], []⟩, ?_⟩
        have hdays' : days = ((f.length + 1 : Nat) : Int) := by push_cast; omega
        have hdays : days.toNat = f.length + 1 := by rw [hdays', Int.toNat_ofNat]
        have hpos : 0 < (groupFrom d' [a] ps).length :=
          List.length_pos.mpr (groupFrom_ne_nil d' [a] ps)
        simp only [pairLoop, pairStep, ne_eq, hdd, not_false_eq_true, if_true, hne, hover,
          groupFrom, if_false, List.map_cons, List.length_append, List.length_cons]
        rw [if_pos (by simp only [List.length_map]; push_cast; omega), hdays]
        rw [show f ++ daySummary (d, acc) :: List.map daySummary (groupFrom d' [a] ps)
          = (f ++ [daySummary (d, acc)]) ++ List.map daySummary (groupFrom d' [a] ps) by simp]
        rw [List.take_append_of_le_length (by simp), List.take_of_length_le (by simp)]
      · obtain ⟨σ', h⟩ := ih (f ++ [daySummary (d, acc)]) (c + 1) d' [a]
          (by simp; omega) (by omega) hd' hps'
        refine ⟨σ', ?_⟩
        have hs : d' ++ lit " \n" ++ a = daySummary (d', [a]) := by simp [daySummary]
        simp only [pairLoop, pairStep, ne_eq, hdd, not_false_eq_true, if_true, hne, hover,
          groupFrom, if_false, hs]
        rw [h]
        simp

theorem pairLoop_init (days : Int) (ps : List (GoString × GoString)) (h0 : 0 ≤ days)
    (hps : ∀ x ∈ ps, x.1 ≠ []) :
    ∃ σ', pairLoop days ⟨[], 0, [], []⟩ ps =
      if days < ((groupDays ps).length : Int) then
        .ret (((groupDays ps).map daySummary).take days.toNat)
      else .next σ' := by
  cases ps with
  | nil =>
    refine ⟨⟨[], 0, [], []⟩, ?_⟩
    simp only [pairLoop, groupDays, List.length_nil]
    rw [if_neg (by push_cast; omega)]
  | cons x ps =>
    obtain ⟨d, a⟩ := x
    have hd : d ≠ [] := hps (d, a) (List.mem_cons_self _ _)
    have hps' : ∀ x ∈ ps, x.1 ≠ [] := fun x hx => hps x (List.mem_cons_of_mem _ hx)
    have hpos : 0 < (groupFrom d [a] ps).length :=
      List.length_pos.mpr (groupFrom_ne_nil d [a] ps)
    by_cases hover : (0 : Int) + 1 > days
    · refine ⟨⟨[], 0, [], []⟩, ?_⟩
      have hdays : days = 0 := by omega
      subst hdays
      simp only [pairLoop, pairStep, ne_eq, hd, not_false_eq_true, if_true, not_true_eq_false,
        if_false, hover, groupDays]
      rw [if_pos (by omega)]
      simp
    · obtain ⟨σ', h⟩ := pairLoop_groupFrom days ps [] (0 + 1) d [a] (by simp) (by omega) hd hps'
      refine ⟨σ', ?_⟩
      have hs : d ++ lit " \n" ++ a = daySummary (d, [a]) := by simp [daySummary]
      simp only [pairLoop, pairStep, ne_eq, hd, not_false_eq_true, if_true, not_true_eq_false,
        if_false, hover, groupDays, hs]
      rw [h]
      simp

theorem datedLines_cons {F : Type} (fmt : FloatFmt F) (e : Entry F) (es : List (Entry F)) :
    datedLines fmt (e :: es)
      = e.Weather.map (fun w => (entryDate e, entryLine fmt e w)) ++ datedLines fmt es := by
  simp [datedLines, datedPairs, List.map_append]

theorem entryStep_wellFormed {F : Type} (fmt : FloatFmt F) (days : Int) (σ : LoopState)
    (e : Entry F) (h : wellFormed e = true) :
    entryStep fmt days σ e
      = pairLoop days σ (e.Weather.map (fun w => (entryDate e, entryLine fmt e w))) := by
  have h11 : 11 ≤ e.DtTxt.length := by simpa [wellFormed] using h
  rw [← descLoop_eq_pairLoop]
  simp only [entryStep, entryDate, entryTime]
  rw [if_neg (by omega), if_neg (by omega)]

theorem entryStep_not_wellFormed {F : Type} (fmt : FloatFmt F) (days : Int) (σ : LoopState)
    (e : Entry F) (h : wellFormed e = false) : entryStep fmt days σ e = .panic := by
  have h11 : e.DtTxt.length < 11 := by simpa [wellFormed] using h
  simp only [entryStep]
  by_cases h10 : e.DtTxt.length < 10
  · rw [if_pos h10]
  · rw [if_neg h10, if_pos h11]

/-- The nested loops are the loop on the dated lines of the entries before the first
malformed timestamp; reaching a malformed timestamp panics and reaching the end is the
error return. -/
theorem entryLoop_eq {F : Type} (fmt : FloatFmt F) (days : Int) (es : List (Entry F)) :
    ∀ σ : LoopState, entryLoop fmt days σ es =
      match pairLoop days σ (datedLines fmt (es.takeWhile wellFormed)) with
      | .ret f => .ok f
      | .next _ =>
        if es.all wellFormed then
          .err (.errorf "formatForecast didnt end properly, shouldve returned earlier")
        else .panic
      | .panic => .panic := by
  induction es with
  | nil => intro σ; simp [entryLoop, datedLines, datedPairs, pairLoop]
  | cons e es ih =>
    intro σ
    cases hwf : wellFormed e with
    | false =>
      simp [entryLoop, entryStep_not_wellFormed fmt days σ e hwf, List.takeWhile, hwf,
        datedLines, datedPairs, pairLoop]
    | true =>
      simp only [entryLoop, entryStep_wellFormed fmt days σ e hwf, List.takeWhile, hwf,
        datedLines_cons, pairLoop_append, List.all_cons, Bool.true_and]
      cases pairLoop days σ (e.Weather.map (fun w => (entryDate e, entryLine fmt e w))) with
      | next σ' => exact ih σ'
      | ret f => rfl
      | panic => rfl

theorem datedLines_fst_ne_nil {F : Type} (fmt : FloatFmt F) (es : List (Entry F))
    (hwf : ∀ e ∈ es, wellFormed e = true) : ∀ x ∈ datedLines fmt es, x.1 ≠ [] := by
  intro x hx
  simp only [datedLines, datedPairs, List.mem_map, List.mem_flatMap] at hx
  obtain ⟨y, ⟨e, he, w, _, rfl⟩, rfl⟩ := hx
  have h11 : 11 ≤ e.DtTxt.length := by simpa [wellFormed] using hwf e he
  intro h
  have : (entryDate e).length = 10 := by simp [entryDate]; omega
  simp only at h
  rw [h] at this
  simp at this

/-- What the loops of `formatForecast` do on every entry list, for a day count that is
not negative. -/
theorem entryLoop_init_eq {F : Type} (fmt : FloatFmt F) (p : JSONWeather F) (days : Int)
    (h0 : 0 ≤ days) :
    entryLoop fmt days ⟨[], 0, [], []⟩ p.List =
      if days < ((groupDays (datedLines fmt (p.List.takeWhile wellFormed))).length : Int) then
        .ok (((groupDays (datedLines fmt (p.List.takeWhile wellFormed))).map daySummary).take
          days.toNat)
      else if p.List.all wellFormed then
        .err (.errorf "formatForecast didnt end properly, shouldve returned earlier")
      else .panic := by
  have hne := datedLines_fst_ne_nil fmt (p.List.takeWhile wellFormed)
    (fun e he => (List.mem_takeWhile_imp he))
  obtain ⟨σ', h⟩ := pairLoop_init days _ h0 hne
  rw [entryLoop_eq, h]
  by_cases hlt : days < ((groupDays (datedLines fmt (p.List.takeWhile wellFormed))).length : Int)
  · rw [if_pos hlt, if_pos hlt]
  · rw [if_neg hlt, if_neg hlt]

theorem wrapInt_eq (n : Int) (h0 : 0 ≤ n) (h : n < 2 ^ 63) : wrapInt n = n := by
  unfold wrapInt
  omega

/-- A call that returns a result has passed `make` and is the result of the loops. -/
theorem formatForecast_ok {F : Type} (fmt : FloatFmt F) (maxCap : Int) (p : JSONWeather F)
    (days : Int) (out : List GoString) (h : formatForecast fmt maxCap p days = .ok out) :
    entryLoop fmt days ⟨[], 0, [], []⟩ p.List = .ok out := by
  simp only [formatForecast] at h
  split at h
  · cases h
  · exact h

/-- When `days * 8` neither overflows nor exceeds the capacity limit, `make` succeeds
and the call is the loops. -/
theorem formatForecast_of_cap {F : Type} (fmt : FloatFmt F) (maxCap : Int) (p : JSONWeather F)
    (days : Int) (h0 : 0 ≤ days) (hcap : days * 8 ≤ maxCap) (hint : days * 8 < 2 ^ 63) :
    formatForecast fmt maxCap p days = entryLoop fmt days ⟨[], 0, [], []⟩ p.List := by
  simp only [formatForecast]
  rw [wrapInt_eq (days * 8) (by omega) hint, if_neg (by omega)]

/-! ## Runs of equal date -/

theorem groupFrom_map_fst {α : Type} (ps : List (GoString × α)) :
    ∀ (d : GoString) (acc : List α),
      (groupFrom d acc ps).map Prod.fst = (ps.map Prod.fst).destutter' (· ≠ ·) d := by
  induction ps with
  | nil => intro d acc; rfl
  | cons x ps ih =>
    intro d acc
    obtain ⟨d', a⟩ := x
    by_cases h : d' = d
    · subst h
      simp only [groupFrom, if_true, List.map_cons]
      rw [List.destutter'_cons_neg _ (by simp)]
      exact ih _ _
    · simp only [groupFrom, h, if_false, List.map_cons]
      rw [List.destutter'_cons_pos _ (Ne.symm h), ih]

theorem groupDays_map_fst {α : Type} (ps : List (GoString × α)) :
    (groupDays ps).map Prod.fst = (ps.map Prod.fst).destutter (· ≠ ·) := by
  cases ps with
  | nil => rfl
  | cons x ps =>
    obtain ⟨d, a⟩ := x
    simp only [groupDays, List.map_cons, List.destutter_cons']
    exact groupFrom_map_fst ps d [a]

theorem groupFrom_flatMap {α : Type} (ps : List (GoString × α)) :
    ∀ (d : GoString) (acc : List α),
      (groupFrom d acc ps).flatMap (fun g => g.2.map (fun a => (g.1, a)))
        = acc.map (fun a => (d, a)) ++ ps := by
  induction ps with
  | nil => intro d acc; simp [groupFrom]
  | cons x ps ih =>
    intro d acc
    obtain ⟨d', a⟩ := x
    by_cases h : d' = d
    · subst h
      simp only [groupFrom, if_true]
      rw [ih]
      simp
    · simp only [groupFrom, h, if_false, List.flatMap_cons]
      rw [ih]
      simp

theorem groupDays_flatMap {α : Type} (ps : List (GoString × α)) :
    (groupDays ps).flatMap (fun g => g.2.map (fun a => (g.1, a))) = ps := by
  cases ps with
  | nil => rfl
  | cons x ps =>
    obtain ⟨d, a⟩ := x
    simp only [groupDays]
    rw [groupFrom_flatMap]
    simp

/-- In a list of runs whose dates are pairwise distinct, the items of a run are the
items of its date. -/
theorem run_eq_filter {α : Type} (G : List (GoString × List α))
    (hG : (G.map Prod.fst).Nodup) (g : GoString × List α) (hg : g ∈ G) :
    ((G.flatMap (fun g => g.2.map (fun a => (g.1, a)))).filter (fun x => x.1 = g.1)).map
      Prod.snd = g.2 := by
  induction G with
  | nil => cases hg
  | cons h G ih =>
    simp only [List.map_cons, List.nodup_cons] at hG
    simp only [List.flatMap_cons, List.filter_append, List.map_append]
    rcases List.mem_cons.mp hg with rfl | hg'
    · have h1 : (g.2.map (fun a => (g.1, a))).filter (fun x => x.1 = g.1)
          = g.2.map (fun a => (g.1, a)) := by
        apply List.filter_eq_self.mpr
        intro x hx
        obtain ⟨a, _, rfl⟩ := List.mem_map.mp hx
        simp
      have h2 : (G.flatMap (fun g => g.2.map (fun a => (g.1, a)))).filter
          (fun x => x.1 = g.1) = [] := by
        apply List.filter_eq_nil_iff.mpr
        intro x hx
        obtain ⟨g', hg', hx'⟩ := List.mem_flatMap.mp hx
        obtain ⟨a, _, rfl⟩ := List.mem_map.mp hx'
        simp only [decide_eq_true_eq]
        intro hEq
        exact hG.1 (List.mem_map.mpr ⟨g', hg', hEq⟩)
      rw [h1, h2]
      simp [List.map_map, Function.comp_def]
    · have hne : h.1 ≠ g.1 := by
        intro hEq
        exact hG.1 (List.mem_map.mpr ⟨g, hg', hEq.symm⟩)
      have h1 : (h.2.map (fun a => (h.1, a))).filter (fun x => x.1 = g.1) = [] := by
        apply List.filter_eq_nil_iff.mpr
        intro x hx
        obtain ⟨a, _, rfl⟩ := List.mem_map.mp hx
        simpa using hne
      rw [h1]
      simpa using ih hG.2 hg'

theorem datedLines_filter {F : Type} (fmt : FloatFmt F) (es : List (Entry F)) (d : GoString) :
    ((datedLines fmt es).filter (fun x => x.1 = d)).map Prod.snd
      = (es.filter (fun e => entryDate e = d)).flatMap (entryLines fmt) := by
  induction es with
  | nil => rfl
  | cons e es ih =>
    rw [datedLines_cons, List.filter_append, List.map_append, ih]
    by_cases h : entryDate e = d
    · have h1 : (e.Weather.map (fun w => (entryDate e, entryLine fmt e w))).filter
          (fun x => x.1 = d) = e.Weather.map (fun w => (entryDate e, entryLine fmt e w)) := by
        apply List.filter_eq_self.mpr
        intro x hx
        obtain ⟨a, _, rfl⟩ := List.mem_map.mp hx
        simpa using h
      rw [h1]
      simp [List.filter_cons, h, entryLines, List.map_map, Function.comp_def]
    · have h1 : (e.Weather.map (fun w => (entryDate e, entryLine fmt e w))).filter
          (fun x => x.1 = d) = [] := by
        apply List.filter_eq_nil_iff.mpr
        intro x hx
        obtain ⟨a, _, rfl⟩ := List.mem_map.mp hx
        simpa using h
      rw [h1]
      simp [List.filter_cons, h]

/-- When no date starts two runs of the dated lines, the text of each run is the
day-summary of its date. -/
theorem groupDays_daySummary {F : Type} (fmt : FloatFmt F) (es : List (Entry F))
    (hnd : ((groupDays (datedLines fmt es)).map Prod.fst).Nodup) :
    (groupDays (datedLines fmt es)).map daySummary
      = ((groupDays (datedLines fmt es)).map Prod.fst).map (dateSummary fmt es) := by
  rw [List.map_map]
  apply List.map_congr_left
  intro g hg
  have h := run_eq_filter _ hnd g hg
  rw [groupDays_flatMap, datedLines_filter] at h
  simp only [daySummary, dateSummary, Function.comp, h]

/-! ## Dates of the lines and dates of the entries -/

theorem destutter'_same_append (a : GoString) (n : Nat) (l : List GoString) :
    (List.replicate n a ++ l).destutter' (· ≠ ·) a = l.destutter' (· ≠ ·) a := by
  induction n with
  | zero => rfl
  | succ n ih =>
    rw [List.replicate_succ, List.cons_append, List.destutter'_cons_neg _ (by simp), ih]

theorem datedLines_map_fst_cons {F : Type} (fmt : FloatFmt F) (e : Entry F)
    (es : List (Entry F)) :
    (datedLines fmt (e :: es)).map Prod.fst
      = List.replicate e.Weather.length (entryDate e) ++ (datedLines fmt es).map Prod.fst := by
  rw [datedLines_cons, List.map_append, List.map_map]
  congr 1
  exact List.eq_replicate_iff.mpr ⟨by simp, by simp⟩

theorem length_destutter'_le_succ (a b : GoString) (l : List GoString) :
    (l.destutter' (· ≠ ·) a).length ≤ (l.destutter' (· ≠ ·) b).length + 1 := by
  cases l with
  | nil => simp
  | cons c l =>
    by_cases ha : a = c <;> by_cases hb : b = c
    · subst ha; subst hb; omega
    · subst ha
      rw [List.destutter'_cons_pos (R := (· ≠ ·)) _ hb]
      simp only [List.length_cons]
      rw [List.destutter'_cons_neg _ (by simp)]
      omega
    · subst hb
      rw [List.destutter'_cons_pos (R := (· ≠ ·)) _ ha, List.destutter'_cons_neg _ (by simp)]
      simp
    · rw [List.destutter'_cons_pos (R := (· ≠ ·)) _ ha,
        List.destutter'_cons_pos (R := (· ≠ ·)) _ hb]
      simp

theorem length_destutter_le_destutter' (d : GoString) (l : List GoString) :
    (l.destutter (· ≠ ·)).length ≤ (l.destutter' (· ≠ ·) d).length := by
  cases l with
  | nil => simp
  | cons c l =>
    rw [List.destutter_cons']
    by_cases h : d = c
    · subst h
      rw [List.destutter'_cons_neg _ (by simp)]
    · rw [List.destutter'_cons_pos (R := (· ≠ ·)) _ h]
      simp

/-- The runs of the dated lines are at most the runs of the entry dates (an entry without
description carries no line). -/
theorem length_destutter'_datedLines_le {F : Type} (fmt : FloatFmt F) (es : List (Entry F)) :
    ∀ a : GoString, (((datedLines fmt es).map Prod.fst).destutter' (· ≠ ·) a).length
      ≤ ((es.map entryDate).destutter' (· ≠ ·) a).length := by
  induction es with
  | nil => intro a; simp [datedLines, datedPairs]
  | cons e es ih =>
    intro a
    rw [datedLines_map_fst_cons, List.map_cons]
    cases hn : e.Weather.length with
    | zero =>
      simp only [List.replicate_zero, List.nil_append]
      by_cases h : a = entryDate e
      · subst h
        rw [List.destutter'_cons_neg _ (by simp)]
        exact ih _
      · rw [List.destutter'_cons_pos (R := (· ≠ ·)) _ h]
        have h1 := ih a
        have h2 := length_destutter'_le_succ a (entryDate e) (es.map entryDate)
        simp only [List.length_cons]
        omega
    | succ n =>
      rw [List.replicate_succ, List.cons_append]
      by_cases h : a = entryDate e
      · subst h
        rw [List.destutter'_cons_neg _ (by simp), List.destutter'_cons_neg _ (by simp),
          destutter'_same_append]
        exact ih _
      · rw [List.destutter'_cons_pos (R := (· ≠ ·)) _ h,
          List.destutter'_cons_pos (R := (· ≠ ·)) _ h, destutter'_same_append]
        simp only [List.length_cons]
        have := ih (entryDate e)
        omega

theorem length_groupDays_le {F : Type} (fmt : FloatFmt F) (es : List (Entry F)) :
    (groupDays (datedLines fmt es)).length ≤ (dateRuns es).length := by
  rw [← List.length_map (groupDays (datedLines fmt es)) Prod.fst, groupDays_map_fst, dateRuns]
  induction es with
  | nil => simp [datedLines, datedPairs]
  | cons e es ih =>
    rw [datedLines_map_fst_cons, List.map_cons, List.destutter_cons']
    cases hn : e.Weather.length with
    | zero =>
      simp only [List.replicate_zero, List.nil_append]
      exact le_trans ih (length_destutter_le_destutter' _ _)
    | succ n =>
      rw [List.replicate_succ, List.cons_append, List.destutter_cons', destutter'_same_append]
      exact length_destutter'_datedLines_le fmt es _

theorem mem_destutter'_ne (l : List GoString) :
    ∀ a x : GoString, x ∈ l.destutter' (· ≠ ·) a ↔ x = a ∨ x ∈ l := by
  induction l with
  | nil => intro a x; simp
  | cons c l ih =>
    intro a x
    by_cases h : a = c
    · subst h
      rw [List.destutter'_cons_neg _ (by simp), ih]
      simp
    · rw [List.destutter'_cons_pos (R := (· ≠ ·)) _ h]
      simp [ih]

theorem mem_destutter_ne (l : List GoString) (x : GoString) :
    x ∈ l.destutter (· ≠ ·) ↔ x ∈ l := by
  cases l with
  | nil => simp
  | cons c l => rw [List.destutter_cons', mem_destutter'_ne]; simp

theorem nodup_destutter_cons_iff (d : GoString) (l : List GoString) :
    ((d :: l).destutter (· ≠ ·)).Nodup
      ↔ (l.destutter (· ≠ ·)).Nodup ∧ (d ∈ l → l.head? = some d) := by
  cases l with
  | nil => simp
  | cons b l =>
    rw [List.destutter_cons']
    by_cases h : d = b
    · subst h
      rw [List.destutter'_cons_neg _ (by simp), List.destutter_cons']
      simp
    · rw [List.destutter'_cons_pos (R := (· ≠ ·)) _ h, List.destutter_cons', List.nodup_cons,
        mem_destutter'_ne]
      constructor
      · rintro ⟨h1, h2⟩
        refine ⟨h2, ?_⟩
        intro hm
        rcases List.mem_cons.mp hm with h3 | h3
        · exact absurd h3 h
        · exact absurd (Or.inr h3) h1
      · rintro ⟨h1, h2⟩
        refine ⟨?_, h1⟩
        rintro (h3 | h3)
        · exact h h3
        · have := h2 (List.mem_cons_of_mem _ h3)
          simp only [List.head?_cons, Option.some.injEq] at this
          exact h this.symm

/-- Entries of the same date are consecutive exactly when no date starts two runs. -/
theorem sameDateConsecutive_iff {F : Type} (es : List (Entry F)) :
    SameDateConsecutive es ↔ (dateRuns es).Nodup := by
  unfold SameDateConsecutive dateRuns
  induction es with
  | nil =>
    simp only [List.map_nil, List.destutter_nil, List.nodup_nil, iff_true]
    intro l₁ l₂ l₃ l₄ a b c h
    simp at h
  | cons e es ih =>
    rw [List.map_cons, nodup_destutter_cons_iff, ← ih]
    constructor
    · intro hb
      constructor
      · intro l₁ l₂ l₃ l₄ a b c h hac
        exact hb (e :: l₁) l₂ l₃ l₄ a b c (by rw [h]; rfl) hac
      · intro hm
        obtain ⟨c, hc, hdc⟩ := List.mem_map.mp hm
        cases es with
        | nil => cases hc
        | cons y es' =>
          simp only [List.map_cons, List.head?_cons, Option.some.injEq]
          rcases List.mem_cons.mp hc with rfl | hc'
          · exact hdc
          · obtain ⟨s, t, rfl⟩ := List.append_of_mem hc'
            exact hb [] [] s t e y c rfl hdc.symm
    · rintro ⟨hb, hhead⟩ l₁ l₂ l₃ l₄ a b c h hac
      cases l₁ with
      | cons y l₁' =>
        simp only [List.cons_append, List.cons.injEq] at h
        exact hb l₁' l₂ l₃ l₄ a b c h.2 hac
      | nil =>
        simp only [List.nil_append, List.cons.injEq] at h
        obtain ⟨rfl, rfl⟩ := h
        have hm : entryDate e ∈ (l₂ ++ b :: (l₃ ++ c :: l₄)).map entryDate :=
          List.mem_map.mpr ⟨c, by simp, hac.symm⟩
        have hh := hhead hm
        cases l₂ with
        | nil =>
          simp only [List.nil_append, List.map_cons, List.head?_cons, Option.some.injEq] at hh
          exact hh
        | cons a' l₂' =>
          simp only [List.cons_append, List.map_cons, List.head?_cons, Option.some.injEq] at hh
          have := hb [] l₂' l₃ l₄ a' b c rfl (hh.trans hac)
          rw [this, hh]

/-- When entries of the same date are consecutive, the runs of dates are as many as the
distinct dates. -/
theorem length_dateRuns {F : Type} (es : List (Entry F)) (h : SameDateConsecutive es) :
    (dateRuns es).length = distinctDates es := by
  apply List.Perm.length_eq
  apply (List.perm_ext_iff_of_nodup ((sameDateConsecutive_iff es).mp h)
    (List.nodup_dedup _)).mpr
  intro a
  rw [dateRuns, mem_destutter_ne, List.mem_dedup]

theorem nodup_destutter'_of_not_mem (l : List GoString) (a d : GoString) (ha : a ∉ l)
    (h : (l.destutter' (· ≠ ·) d).Nodup) : (l.destutter' (· ≠ ·) a).Nodup := by
  cases l with
  | nil => simp
  | cons c l =>
    have hac : a ≠ c := fun hEq => ha (hEq ▸ List.mem_cons_self _ _)
    have hal : a ∉ l := fun hm => ha (List.mem_cons_of_mem _ hm)
    have hc : (l.destutter' (· ≠ ·) c).Nodup := by
      by_cases hdc : d = c
      · subst hdc
        rwa [List.destutter'_cons_neg _ (by simp)] at h
      · rw [List.destutter'_cons_pos (R := (· ≠ ·)) _ hdc] at h
        exact (List.nodup_cons.mp h).2
    rw [List.destutter'_cons_pos (R := (· ≠ ·)) _ hac]
    refine List.nodup_cons.mpr ⟨?_, hc⟩
    rw [mem_destutter'_ne]
    rintro (h1 | h1)
    · exact hac h1
    · exact hal h1

theorem nodup_destutter_of_destutter' (l : List GoString) (d : GoString)
    (h : (l.destutter' (· ≠ ·) d).Nodup) : (l.destutter (· ≠ ·)).Nodup := by
  cases l with
  | nil => simp
  | cons c l =>
    rw [List.destutter_cons']
    by_cases hdc : d = c
    · subst hdc
      rwa [List.destutter'_cons_neg _ (by simp)] at h
    · rw [List.destutter'_cons_pos (R := (· ≠ ·)) _ hdc] at h
      exact (List.nodup_cons.mp h).2

theorem mem_datedLines_fst {F : Type} (fmt : FloatFmt F) (es : List (Entry F)) (x : GoString)
    (hx : x ∈ (datedLines fmt es).map Prod.fst) : x ∈ es.map entryDate := by
  simp only [datedLines, datedPairs, List.map_map, List.mem_map, List.mem_flatMap,
    Function.comp] at hx
  obtain ⟨y, ⟨e, he, w, _, rfl⟩, rfl⟩ := hx
  exact List.mem_map.mpr ⟨e, he, rfl⟩

theorem nodup_destutter'_datedLines {F : Type} (fmt : FloatFmt F) (es : List (Entry F)) :
    ∀ a : GoString, ((es.map entryDate).destutter' (· ≠ ·) a).Nodup →
      (((datedLines fmt es).map Prod.fst).destutter' (· ≠ ·) a).Nodup := by
  induction es with
  | nil => intro a _; simp [datedLines, datedPairs]
  | cons e es ih =>
    intro a h
    rw [datedLines_map_fst_cons]
    rw [List.map_cons] at h
    cases hn : e.Weather.length with
    | zero =>
      simp only [List.replicate_zero, List.nil_append]
      by_cases hd : a = entryDate e
      · subst hd
        rw [List.destutter'_cons_neg _ (by simp)] at h
        exact ih _ h
      · rw [List.destutter'_cons_pos (R := (· ≠ ·)) _ hd] at h
        obtain ⟨hnot, hnd⟩ := List.nodup_cons.mp h
        apply ih a
        apply nodup_destutter'_of_not_mem _ a (entryDate e) _ hnd
        intro hm
        exact hnot ((mem_destutter'_ne _ _ _).mpr (Or.inr hm))
    | succ n =>
      rw [List.replicate_succ, List.cons_append]
      by_cases hd : a = entryDate e
      · subst hd
        rw [List.destutter'_cons_neg _ (by simp)] at h
        rw [List.destutter'_cons_neg _ (by simp), destutter'_same_append]
        exact ih _ h
      · rw [List.destutter'_cons_pos (R := (· ≠ ·)) _ hd] at h
        obtain ⟨hnot, hnd⟩ := List.nodup_cons.mp h
        rw [List.destutter'_cons_pos (R := (· ≠ ·)) _ hd, destutter'_same_append]
        refine List.nodup_cons.mpr ⟨?_, ih _ hnd⟩
        intro hm
        apply hnot
        rw [mem_destutter'_ne] at hm ⊢
        rcases hm with h1 | h1
        · exact Or.inl h1
        · exact Or.inr (mem_datedLines_fst fmt es a h1)

/-- When entries of the same date are consecutive, no date starts two runs of lines. -/
theorem nodup_groupDays_fst {F : Type} (fmt : FloatFmt F) (es : List (Entry F))
    (h : SameDateConsecutive es) : ((groupDays (datedLines fmt es)).map Prod.fst).Nodup := by
  rw [groupDays_map_fst]
  rw [sameDateConsecutive_iff] at h
  unfold dateRuns at h
  induction es with
  | nil => simp [datedLines, datedPairs]
  | cons e es ih =>
    rw [List.map_cons, List.destutter_cons'] at h
    rw [datedLines_map_fst_cons]
    cases hn : e.Weather.length with
    | zero =>
      simp only [List.replicate_zero, List.nil_append]
      exact ih (nodup_destutter_of_destutter' _ _ h)
    | succ n =>
      rw [List.replicate_succ, List.cons_append, List.destutter_cons', destutter'_same_append]
      exact nodup_destutter'_datedLines fmt es _ h

/-- The formatter on well-formed timestamps with entries of the same date consecutive:
the day-summaries of the first `days` dates that carry a line, if a further date
follows, and the error return otherwise. -/
theorem formatForecast_consecutive {F : Type} (fmt : FloatFmt F) (maxCap : Int)
    (p : JSONWeather F) (days : Int) (h0 : 0 ≤ days) (hcap : days * 8 ≤ maxCap)
    (hint : days * 8 < 2 ^ 63) (hts : ∀ e ∈ p.List, 11 ≤ e.DtTxt.length)
    (hcons : SameDateConsecutive p.List) :
    formatForecast fmt maxCap p days =
      if days < ((groupDays (datedLines fmt p.List)).length : Int) then
        .ok ((((groupDays (datedLines fmt p.List)).map Prod.fst).take days.toNat).map
          (dateSummary fmt p.List))
      else .err (.errorf "formatForecast didnt end properly, shouldve returned earlier") := by
  have hall : ∀ e ∈ p.List, wellFormed e = true := by
    intro e he; simpa [wellFormed] using hts e he
  have htw : p.List.takeWhile wellFormed = p.List := List.takeWhile_eq_self_iff.mpr hall
  have hallb : p.List.all wellFormed = true := List.all_eq_true.mpr hall
  rw [formatForecast_of_cap fmt maxCap p days h0 hcap hint, entryLoop_init_eq fmt p days h0,
    htw, hallb, groupDays_daySummary fmt p.List (nodup_groupDays_fst fmt p.List hcons), List.map_take]
  simp

/-! ## Request construction -/

theorem NewCityForecast_ok (city : GoString) (days : Int) (cf : CityForecast)
    (h : NewCityForecast city days = .ok cf) :
    city ≠ [] ∧ 1 ≤ days ∧ days ≤ 5 ∧ cf = ⟨city, days⟩ := by
  unfold NewCityForecast at h
  split at h
  · cases h
  · split at h
    · cases h
    · cases h
      refine ⟨by assumption, ?_, ?_, rfl⟩ <;> omega

/-- C1: `NewCityForecast(city, days)` succeeds exactly when the city is not empty and
`1 ≤ days ≤ 5`, and then returns a `CityForecast` holding that city and that day count; it
fails with `ErrEmptyCity` for the empty city whatever `days` is, and with `ErrNumberDays`
for a non-empty city and `days` below 1 or above 5; the two errors are distinct values with
distinct texts. -/
theorem NewCityForecast_spec (city : GoString) (days : Int) :
    ((∃ cf, NewCityForecast city days = .ok cf) ↔ (city ≠ [] ∧ 1 ≤ days ∧ days ≤ 5))
    ∧ (∀ cf, NewCityForecast city days = .ok cf → cf.City = city ∧ cf.Days = days)
    ∧ (city = [] → NewCityForecast city days = .err .ErrEmptyCity)
    ∧ (city ≠ [] → (days < 1 ∨ 5 < days) → NewCityForecast city days = .err .ErrNumberDays)
    ∧ Err.ErrEmptyCity ≠ Err.ErrNumberDays
    ∧ Err.ErrEmptyCity.Error ≠ Err.ErrNumberDays.Error := by
  refine ⟨?_, ?_, ?_, ?_, by decide, by decide⟩
  · constructor
    · rintro ⟨cf, h⟩
      obtain ⟨hc, h1, h5, _⟩ := NewCityForecast_ok city days cf h
      exact ⟨hc, h1, h5⟩
    · rintro ⟨hc, h1, h5⟩
      refine ⟨⟨city, days⟩, ?_⟩
      unfold NewCityForecast
      rw [if_neg hc, if_neg (by omega)]
  · intro cf h
    obtain ⟨_, _, _, rfl⟩ := NewCityForecast_ok city days cf h
    exact ⟨rfl, rfl⟩
  · intro hc
    unfold NewCityForecast
    rw [if_pos hc]
  · intro hc hd
    unfold NewCityForecast
    rw [if_neg hc, if_pos (by omega)]

/-! ## Grouping by day -/

/-- C4, as stated, fails. Four entries with well-formed timestamps whose dates alternate
between two days contain fewer distinct dates than `days = 3`, and `formatForecast`
returns three summaries, not an error. And on the empty list, which contains fewer
distinct dates than any `days ≥ 1`, the call ends in the panic of `make` instead of the
error return when `days * 8` overflows to a negative capacity (`days = 2^60`) or exceeds
the capacity limit (`days = 2^45` with the limit `2^44`). -/
theorem formatForecast_alternating_dates :
    ((∀ e ∈ alternating.List, 11 ≤ e.DtTxt.length)
      ∧ (distinctDates alternating.List : Int) < 3
      ∧ formatForecast sampleFmt sampleCap alternating 3
        = .ok [lit "2024-01-01 \n09:00:00 | a - h:80.5% - 15.33°C\n",
               lit "2024-01-02 \n09:00:00 | b - h:79% - 16.00°C\n",
               lit "2024-01-01 \n12:00:00 | c - h:90% - 9.75°C\n"])
    ∧ ((distinctDates (⟨[]⟩ : JSONWeather Nat).List : Int) < 2 ^ 60
      ∧ formatForecast sampleFmt sampleCap ⟨[]⟩ (2 ^ 60) = .panic
      ∧ formatForecast sampleFmt sampleCap ⟨[]⟩ (2 ^ 45) = .panic) := by
  refine ⟨⟨by decide, by decide, by decide⟩, by decide, by decide, by decide⟩

/-- C4, amended: for `days ≥ 1` such that `make` succeeds (`days * 8` neither overflows
nor exceeds the capacity limit of the machine) and an entry list (the empty one included)
with well-formed timestamps in which entries of the same date are consecutive and which
contains fewer distinct dates than `days`, `formatForecast` returns the error
"formatForecast didnt end properly, shouldve returned earlier" and no summary list. -/
theorem formatForecast_fewer_dates {F : Type} (fmt : FloatFmt F) (maxCap : Int)
    (p : JSONWeather F) (days : Int) (hdays : 1 ≤ days) (hcap : days * 8 ≤ maxCap)
    (hint : days * 8 < 2 ^ 63) (hts : ∀ e ∈ p.List, 11 ≤ e.DtTxt.length)
    (hcons : SameDateConsecutive p.List) (hfew : (distinctDates p.List : Int) < days) :
    formatForecast fmt maxCap p days
      = .err (.errorf "formatForecast didnt end properly, shouldve returned earlier") := by
  have hlen := length_dateRuns p.List hcons
  have hle := length_groupDays_le fmt p.List
  rw [formatForecast_consecutive fmt maxCap p days (by omega) hcap hint hts hcons,
    if_neg (by omega)]

/-- C4, amended, on samples: the empty list with `days = 1`, and two dates with
`days = 3`. -/
theorem formatForecast_fewer_dates_witness :
    formatForecast sampleFmt sampleCap ⟨[]⟩ 1
        = .err (.errorf "formatForecast didnt end properly, shouldve returned earlier")
      ∧ formatForecast sampleFmt sampleCap twoByTwo 3
        = .err (.errorf "formatForecast didnt end properly, shouldve returned earlier") :=
  ⟨formatForecast_fewer_dates sampleFmt sampleCap ⟨[]⟩ 1 (by decide) (by decide) (by decide)
     (by decide) ((sameDateConsecutive_iff _).mpr (by decide)) (by decide),
   formatForecast_fewer_dates sampleFmt sampleCap twoByTwo 3 (by decide) (by decide)
     (by decide) (by decide) ((sameDateConsecutive_iff _).mpr (by decide)) (by decide)⟩

theorem mem_take_map_daySummary_ne_nil (G : List (GoString × List GoString)) (n : Nat)
    (hG : ∀ g ∈ G, g.1 ≠ []) : ∀ s ∈ (G.map daySummary).take n, s ≠ [] := by
  intro s hs
  obtain ⟨g, hg, rfl⟩ := List.mem_map.mp (List.mem_of_mem_take hs)
  exact daySummary_ne_nil g (hG g hg)

theorem groupDays_fst_ne_nil {F : Type} (fmt : FloatFmt F) (es : List (Entry F))
    (hwf : ∀ e ∈ es, wellFormed e = true) :
    ∀ g ∈ groupDays (datedLines fmt es), g.1 ≠ [] := by
  intro g hg
  have h1 : g.1 ∈ (groupDays (datedLines fmt es)).map Prod.fst := List.mem_map_of_mem _ hg
  rw [groupDays_map_fst, mem_destutter_ne] at h1
  obtain ⟨x, hx, hxg⟩ := List.mem_map.mp h1
  rw [← hxg]
  exact datedLines_fst_ne_nil fmt es hwf x hx

theorem sendRest_ne_panic {F : Type} (env : Env F) (app recipient : GoString)
    (vs : List GoString) : ∀ n, (sendRest env app recipient n vs).2 ≠ .panic := by
  induction vs with
  | nil => intro n; simp [sendRest]
  | cons v vs ih =>
    intro n
    simp only [sendRest]
    split
    · simp
    · exact ih (n + 1)

theorem report_cons_ne_panic {F : Type} (env : Env F) (flags : Flags)
    (app recipient first : GoString) (others : List GoString) :
    (report env flags app recipient (first :: others)).2 ≠ .panic := by
  simp only [report]
  split
  · split
    · simp
    · exact sendRest_ne_panic env app recipient others 1
  · simp

/-- C10: for `days ≥ 1` and every entry list, whatever the order of its dates, a result
that `formatForecast` returns without error has exactly `days` elements, each a non-empty
string; so for a request validated by `NewCityForecast` the result has an element 0, and
the orchestrator, handed it, does not end in a panic. -/
theorem formatForecast_ok_shape {F : Type} (fmt : FloatFmt F) (maxCap : Int)
    (p : JSONWeather F) (days : Int) (out : List GoString) (hdays : 1 ≤ days)
    (h : formatForecast fmt maxCap p days = .ok out) :
    ((out.length : Int) = days ∧ ∀ s ∈ out, s ≠ [])
    ∧ (∀ (city : GoString) (n : Int) (cf : CityForecast) (q : JSONWeather F)
        (res : List GoString) (env : Env F) (flags : Flags) (app recipient : GoString),
        NewCityForecast city n = .ok cf → formatForecast fmt maxCap q cf.Days = .ok res →
          0 < res.length ∧ (report env flags app recipient res).2 ≠ .panic) := by
  have key : ∀ (q : JSONWeather F) (n : Int) (res : List GoString), 1 ≤ n →
      formatForecast fmt maxCap q n = .ok res → (res.length : Int) = n ∧ ∀ s ∈ res, s ≠ [] := by
    intro q n res hn hq
    have hq := formatForecast_ok fmt maxCap q n res hq
    rw [entryLoop_init_eq fmt q n (by omega)] at hq
    split at hq
    · rename_i hlt
      cases hq
      refine ⟨?_, mem_take_map_daySummary_ne_nil _ _
        (groupDays_fst_ne_nil fmt _ (fun e he => List.mem_takeWhile_imp he))⟩
      rw [List.length_take, List.length_map]
      omega
    · split at hq <;> cases hq
  refine ⟨key p days out hdays h, ?_⟩
  intro city n cf q res env flags app recipient hcf hq
  obtain ⟨_, h1, _, rfl⟩ := NewCityForecast_ok city n cf hcf
  have hres := (key q n res h1 hq).1
  have hpos : 0 < res.length := by omega
  refine ⟨hpos, ?_⟩
  cases res with
  | nil => simp at hpos
  | cons first others => exact report_cons_ne_panic env flags app recipient first others

/-- C10, on a sample whose dates alternate: three summaries for `days = 3`. -/
theorem formatForecast_ok_shape_witness :
    formatForecast sampleFmt sampleCap alternating 3
        = .ok [lit "2024-01-01 \n09:00:00 | a - h:80.5% - 15.33°C\n",
               lit "2024-01-02 \n09:00:00 | b - h:79% - 16.00°C\n",
               lit "2024-01-01 \n12:00:00 | c - h:90% - 9.75°C\n"]
    ∧ (([lit "2024-01-01 \n09:00:00 | a - h:80.5% - 15.33°C\n",
         lit "2024-01-02 \n09:00:00 | b - h:79% - 16.00°C\n",
         lit "2024-01-01 \n12:00:00 | c - h:90% - 9.75°C\n"] : List GoString).length : Int) = 3
    ∧ ∀ s ∈ [lit "2024-01-01 \n09:00:00 | a - h:80.5% - 15.33°C\n",
             lit "2024-01-02 \n09:00:00 | b - h:79% - 16.00°C\n",
             lit "2024-01-01 \n12:00:00 | c - h:90% - 9.75°C\n"], s ≠ [] :=
  ⟨by decide, (formatForecast_ok_shape sampleFmt sampleCap alternating 3 _ (by decide) (by decide)).1⟩

/-! ## Lines of a day-summary -/

theorem Split_eq (l : GoString) :
    Split l = l.takeWhile (· ≠ 32)
      :: (if (32 : UInt8) ∈ l then Split ((l.dropWhile (· ≠ 32)).drop 1) else []) := by
  induction l with
  | nil => simp [Split]
  | cons b rest ih =>
    by_cases hb : b = 32
    · subst hb
      simp [Split, List.takeWhile, List.dropWhile]
    · have hmem : ((32 : UInt8) ∈ b :: rest) ↔ (32 : UInt8) ∈ rest := by
        simp [List.mem_cons, Ne.symm hb]
      simp only [Split, hb, if_false, List.takeWhile, List.dropWhile, ne_eq, not_false_eq_true,
        decide_True, hmem]
      rw [ih]

theorem sliceToStrings_Split (l : GoString) (h : (32 : UInt8) ∈ l) :
    sliceToStrings (Split l) = .ok (firstField l, secondField l) := by
  rw [Split_eq l, if_pos h, Split_eq ((l.dropWhile (· ≠ 32)).drop 1)]
  rfl

theorem sliceToStrings_Split_no_space (l : GoString) (h : (32 : UInt8) ∉ l) :
    sliceToStrings (Split l) = .panic := by
  rw [Split_eq l, if_neg h]
  rfl

theorem lookup_filter_ne (m : GoMap) (k k' : GoString) (h : k' ≠ k) :
    (m.filter (fun x => x.1 ≠ k)).lookup k' = m.lookup k' := by
  induction m with
  | nil => rfl
  | cons x m ih =>
    obtain ⟨a, b⟩ := x
    by_cases ha : a = k
    · subst ha
      have hbeq : (k' == a) = false := by simpa using h
      rw [List.filter_cons_of_neg (by simp), ih, List.lookup_cons, hbeq]
    · rw [List.filter_cons_of_pos (by simpa using ha), List.lookup_cons, List.lookup_cons, ih]

theorem GoMap.find_set (m : GoMap) (k v k' : GoString) :
    (m.set k v).find k' = if k' = k then some v else m.find k' := by
  by_cases h : k' = k
  · subst h
    simp [GoMap.set, GoMap.find, List.lookup]
  · have hbeq : (k' == k) = false := by simpa using h
    simp only [GoMap.set, GoMap.find, h, if_false]
    rw [List.lookup_cons, hbeq]
    exact lookup_filter_ne m k k' h

theorem lookup_append_singleton (l : List (GoString × GoString)) (k v k' : GoString) :
    (l ++ [(k, v)]).lookup k'
      = match l.lookup k' with
        | some x => some x
        | none => if k' = k then some v else none := by
  induction l with
  | nil =>
    by_cases h : k' = k
    · subst h; simp [List.lookup]
    · have hbeq : (k' == k) = false := by simpa using h
      simp [List.lookup, hbeq, h]
  | cons x l ih =>
    obtain ⟨a, b⟩ := x
    by_cases ha : k' = a
    · subst ha; simp [List.lookup]
    · have hbeq : (k' == a) = false := by simpa using ha
      simp only [List.cons_append, List.lookup, hbeq]
      exact ih

/-- The loop of `getTokens` on lines that all have a space: each line stores its second
field under its first, a later line replacing an earlier one. -/
theorem getTokensLoop_spaced (lines : List GoString) (hsp : ∀ l ∈ lines, (32 : UInt8) ∈ l) :
    ∀ m : GoMap, ∃ m', getTokensLoop m lines = .ok m' ∧
      ∀ k, m'.find k
        = match ((lines.map (fun l => (firstField l, secondField l))).reverse).lookup k with
          | some v => some v
          | none => m.find k := by
  induction lines with
  | nil => intro m; exact ⟨m, rfl, fun k => rfl⟩
  | cons l lines ih =>
    intro m
    have hl := hsp l (List.mem_cons_self _ _)
    obtain ⟨m', hm', hfind⟩ := ih (fun x hx => hsp x (List.mem_cons_of_mem _ hx))
      (m.set (firstField l) (secondField l))
    refine ⟨m', ?_, ?_⟩
    · simp only [getTokensLoop, sliceToStrings_Split l hl]
      exact hm'
    · intro k
      rw [hfind k, List.map_cons, List.reverse_cons, lookup_append_singleton, GoMap.find_set]
      cases ((lines.map (fun l => (firstField l, secondField l))).reverse).lookup k with
      | some v => rfl
      | none =>
        by_cases hk : k = firstField l
        · simp [hk]
        · simp [hk]

theorem ne_space_of_not_mem (n : GoString) (hn : (32 : UInt8) ∉ n) :
    ∀ a ∈ n, (decide (a ≠ 32)) = true := by
  intro a ha
  have : a ≠ 32 := fun h => hn (h ▸ ha)
  simpa using this

theorem firstField_name_token (n t : GoString) (hn : (32 : UInt8) ∉ n) :
    firstField (n ++ lit " " ++ t) = n := by
  have hlit : lit " " = [32] := by decide
  rw [hlit, firstField, List.append_assoc,
    List.takeWhile_append_of_pos (ne_space_of_not_mem n hn)]
  simp

theorem secondField_name_token (n t : GoString) (hn : (32 : UInt8) ∉ n)
    (ht : (32 : UInt8) ∉ t) : secondField (n ++ lit " " ++ t) = t := by
  have hlit : lit " " = [32] := by decide
  rw [hlit, secondField, List.append_assoc,
    List.dropWhile_append_of_pos (ne_space_of_not_mem n hn)]
  simp only [List.singleton_append, ne_eq, not_true_eq_false, decide_False,
    Bool.false_eq_true, not_false_eq_true, List.dropWhile_cons_of_neg, List.drop_succ_cons,
    List.drop_zero]
  exact List.takeWhile_eq_self_iff.mpr (ne_space_of_not_mem t ht)

/-- C7, as stated, fails: a line with three space-separated fields is accepted (the first
field mapped to the second, the third ignored), and a line without a space, the empty
line included, ends `getTokens` in a panic, not in a returned error. -/
theorem getTokens_malformed_lines :
    getTokens (fun _ => .scanned [lit "openweather abc def"] none) (lit "tokens.txt")
        = .ok [(lit "openweather", lit "abc")]
    ∧ getTokens (fun _ => .scanned [lit "openweather"] none) (lit "tokens.txt") = .panic
    ∧ getTokens (fun _ => .scanned [lit ""] none) (lit "tokens.txt") = .panic := by
  refine ⟨by decide, by decide, by decide⟩

/-- C7, amended: for every credential file that is read to its end and whose lines all
contain a space, `getTokens` returns the mapping that sends the first space-separated
field of each line to its second field, a later line replacing an earlier one and
further fields being ignored; on a line made of a name and a token separated by a single
space these two fields are the name and the token, so a file of such lines yields the
name-to-token mapping. -/
theorem getTokens_spaced_lines (openFile : GoString → FileRead) (filename : GoString)
    (lines : List GoString) (hopen : openFile filename = .scanned lines none)
    (hsp : ∀ l ∈ lines, (32 : UInt8) ∈ l) :
    (∃ m, getTokens openFile filename = .ok m ∧
      ∀ k, m.find k
        = ((lines.map (fun l => (firstField l, secondField l))).reverse).lookup k)
    ∧ (∀ n t : GoString, (32 : UInt8) ∉ n → (32 : UInt8) ∉ t →
        firstField (n ++ lit " " ++ t) = n ∧ secondField (n ++ lit " " ++ t) = t) := by
  constructor
  · obtain ⟨m, hm, hfind⟩ := getTokensLoop_spaced lines hsp []
    refine ⟨m, ?_, ?_⟩
    · simp only [getTokens, hopen, hm]
    · intro k
      rw [hfind k]
      cases ((lines.map (fun l => (firstField l, secondField l))).reverse).lookup k with
      | some v => rfl
      | none => rfl
  · intro n t hn ht
    exact ⟨firstField_name_token n t hn, secondField_name_token n t hn ht⟩

/-- C7, amended, on a sample file of three lines, the third replacing the first. -/
theorem getTokens_spaced_lines_witness :
    ∃ m, getTokens (fun _ => .scanned
          [lit "pushover abc", lit "openweather def", lit "pushover xyz"] none)
          (lit "tokens.txt") = .ok m
      ∧ m.find (lit "pushover") = some (lit "xyz")
      ∧ m.find (lit "openweather") = some (lit "def")
      ∧ m.find (lit "recipient") = none := by
  obtain ⟨m, h1, h2⟩ := (getTokens_spaced_lines (fun _ => .scanned
    [lit "pushover abc", lit "openweather def", lit "pushover xyz"] none) (lit "tokens.txt")
    [lit "pushover abc", lit "openweather def", lit "pushover xyz"] rfl (by decide)).1
  exact ⟨m, h1, (h2 _).trans (by decide), (h2 _).trans (by decide), (h2 _).trans (by decide)⟩

/-! ## The orchestrator -/

theorem sentMessages_append (a b : List Event) :
    sentMessages (a ++ b) = sentMessages a ++ sentMessages b := by
  simp [sentMessages, List.filterMap_append]

theorem sentMessages_println (vs : List GoString) :
    sentMessages (vs.map Event.println) = [] := by
  induction vs with
  | nil => rfl
  | cons v vs ih =>
    simp only [sentMessages, List.map_cons, List.filterMap_cons] at ih ⊢
    exact ih

/-- The loop that sends the remaining day-summaries, every call succeeding. -/
theorem sendRest_all_ok {F : Type} (env : Env F) (app recipient : GoString)
    (vs : List GoString) :
    ∀ n, (∀ i v, vs[i]? = some v → env.sendMessage (n + i) app recipient v [] = none) →
      sentMessages (sendRest env app recipient n vs).1 = vs.map (fun v => (v, []))
        ∧ (sendRest env app recipient n vs).2 = .exit 0 := by
  induction vs with
  | nil => intro n _; exact ⟨rfl, rfl⟩
  | cons v vs ih =>
    intro n hok
    have h0 : env.sendMessage n app recipient v [] = none := by
      simpa using hok 0 v (by simp)
    have hrest : ∀ i w, vs[i]? = some w →
        env.sendMessage (n + 1 + i) app recipient w [] = none := by
      intro i w hi
      have := hok (i + 1) w (by simpa using hi)
      rwa [show n + (i + 1) = n + 1 + i by omega] at this
    obtain ⟨h1, h2⟩ := ih (n + 1) hrest
    simp only [sendRest, h0]
    refine ⟨?_, h2⟩
    simp only [List.map_cons]
    rw [← h1]
    simp [sentMessages]

/-- The loop that sends the remaining day-summaries, the call for the `i`-th of them
being the first to fail. -/
theorem sendRest_fail {F : Type} (env : Env F) (app recipient : GoString)
    (vs : List GoString) :
    ∀ n i, (∀ j v, j < i → vs[j]? = some v →
        env.sendMessage (n + j) app recipient v [] = none) →
      (∃ v, vs[i]? = some v ∧ env.sendMessage (n + i) app recipient v [] ≠ none) →
      sentMessages (sendRest env app recipient n vs).1 = (vs.take (i + 1)).map (fun v => (v, []))
        ∧ (sendRest env app recipient n vs).2 = .exit 1 := by
  induction vs with
  | nil =>
    intro n i _ hfail
    obtain ⟨v, hv, _⟩ := hfail
    simp at hv
  | cons v vs ih =>
    intro n i hok hfail
    cases i with
    | zero =>
      obtain ⟨w, hw, hne⟩ := hfail
      simp only [List.getElem?_cons_zero, Option.some.injEq] at hw
      subst hw
      simp only [Nat.add_zero] at hne
      cases hsend : env.sendMessage n app recipient v [] with
      | none => exact absurd hsend hne
      | some e =>
        simp only [sendRest, hsend]
        simp [sentMessages]
    | succ i =>
      have h0 : env.sendMessage n app recipient v [] = none := by
        simpa using hok 0 v (by omega) (by simp)
      have hrest : ∀ j w, j < i → vs[j]? = some w →
          env.sendMessage (n + 1 + j) app recipient w [] = none := by
        intro j w hj hw
        have := hok (j + 1) w (by omega) (by simpa using hw)
        rwa [show n + (j + 1) = n + 1 + j by omega] at this
      have hfail' : ∃ w, vs[i]? = some w ∧
          env.sendMessage (n + 1 + i) app recipient w [] ≠ none := by
        obtain ⟨w, hw, hne⟩ := hfail
        refine ⟨w, by simpa using hw, ?_⟩
        rwa [show n + (i + 1) = n + 1 + i by omega] at hne
      obtain ⟨h1, h2⟩ := ih (n + 1) i hrest hfail'
      simp only [sendRest, h0]
      refine ⟨?_, h2⟩
      simp only [List.take_succ_cons, List.map_cons]
      rw [← h1]
      simp [sentMessages]

theorem mainWithTokens_of_forecast {F : Type} (fmt : FloatFmt F) (env : Env F) (flags : Flags)
    (tokens : GoMap) (ow : OpenWeather) (cf : CityForecast) (s : List GoString)
    (hnew : New (tokens.get (lit "openweather")) = .ok ow)
    (hcf : NewCityForecast flags.city flags.days = .ok cf)
    (hf : (Forecast fmt env.maxCap env.getJSON ow cf).2 = .ok s) :
    ∃ url, mainWithTokens fmt env flags tokens
      = (Event.httpGet url ::
          (report env flags (tokens.get (lit "pushover")) (tokens.get (lit "recipient")) s).1,
         (report env flags (tokens.get (lit "pushover")) (tokens.get (lit "recipient")) s).2) := by
  refine ⟨APIEndpoint ++ lit "?q=" ++ cf.City ++ lit "&units=metric&appid=" ++ ow.token, ?_⟩
  simp only [mainWithTokens, hnew, hcf]
  simp only [Forecast] at hf ⊢
  split at hf
  · cases hf
  · rename_i w hw
    simp only at hf
    simp only [hw, hf]
    rfl

theorem sentMessages_logged (flags : Flags) (s : List GoString) :
    sentMessages (Event.logInfo (forecastTitle flags.city flags.days) ::
      (if flags.debug then
        [Event.logDebug (lit "Forecast len=\x27" ++ lit (toString s.length) ++ lit "\x27")]
      else [])) = [] := by
  cases flags.debug <;> simp [sentMessages]

/-- Lines 83-105 with the notification toggle on: the first call of `SendMessage` and
the loop after it. -/
theorem report_sent {F : Type} (env : Env F) (flags : Flags) (app recipient first : GoString)
    (others : List GoString) (hon : flags.sendPushover = true) :
    (∀ e, env.sendMessage 0 app recipient first (forecastTitle flags.city flags.days) = some e →
      sentMessages (report env flags app recipient (first :: others)).1
          = [(first, forecastTitle flags.city flags.days)]
        ∧ (report env flags app recipient (first :: others)).2 = .exit 1)
    ∧ (env.sendMessage 0 app recipient first (forecastTitle flags.city flags.days) = none →
      sentMessages (report env flags app recipient (first :: others)).1
          = (first, forecastTitle flags.city flags.days)
            :: sentMessages (sendRest env app recipient 1 others).1
        ∧ (report env flags app recipient (first :: others)).2
          = (sendRest env app recipient 1 others).2) := by
  constructor
  · intro e he
    simp only [report, hon, if_true, he]
    refine ⟨?_, trivial⟩
    rw [sentMessages_append, sentMessages_append, sentMessages_logged]
    simp only [List.length_cons, List.nil_append]
    rw [show (Event.println first :: others.map Event.println)
      = (first :: others).map Event.println from rfl, sentMessages_println]
    simp [sentMessages]
  · intro he
    simp only [report, hon, if_true, he]
    refine ⟨?_, trivial⟩
    rw [sentMessages_append, sentMessages_append, sentMessages_append, sentMessages_logged]
    simp only [List.length_cons, List.nil_append]
    rw [show (Event.println first :: others.map Event.println)
      = (first :: others).map Event.println from rfl, sentMessages_println]
    simp [sentMessages]

theorem report_silent {F : Type} (env : Env F) (flags : Flags) (app recipient first : GoString)
    (others : List GoString) (hoff : flags.sendPushover = false) :
    sentMessages (report env flags app recipient (first :: others)).1 = []
      ∧ (report env flags app recipient (first :: others)).2 = .exit 0 := by
  simp only [report, hoff]
  refine ⟨?_, rfl⟩
  simp only [Bool.false_eq_true, if_false]
  rw [sentMessages_append, sentMessages_logged]
  simp only [List.length_cons, List.nil_append]
  rw [show (Event.println first :: others.map Event.println)
    = (first :: others).map Event.println from rfl, sentMessages_println]

/-- C9: for a non-empty forecast sequence `s` returned by `Forecast`, the messages the
orchestrator hands to the notification provider are: none when the toggle is off; when it
is on and every call succeeds, exactly `len(s)` messages in order, the first with body
`s[0]` and the title "Weather forecast for <city> (<days> day(s))", each further one with
body `s[i]` and no title; when the call for the `i`-th message is the first to fail, the
messages up to the `i`-th and none after it, and the process exits with status 1. -/
theorem main_notifications {F : Type} (fmt : FloatFmt F) (env : Env F) (flags : Flags)
    (tokens : GoMap) (ow : OpenWeather) (cf : CityForecast) (s : List GoString)
    (hnew : New (tokens.get (lit "openweather")) = .ok ow)
    (hcf : NewCityForecast flags.city flags.days = .ok cf)
    (hf : (Forecast fmt env.maxCap env.getJSON ow cf).2 = .ok s) (hs : s ≠ []) :
    (flags.sendPushover = false →
      sentMessages (mainWithTokens fmt env flags tokens).1 = [])
    ∧ (flags.sendPushover = true →
        (∀ i b t, (expectedMessages (forecastTitle flags.city flags.days) s)[i]? = some (b, t) →
          env.sendMessage i (tokens.get (lit "pushover")) (tokens.get (lit "recipient")) b t
            = none) →
        sentMessages (mainWithTokens fmt env flags tokens).1
            = expectedMessages (forecastTitle flags.city flags.days) s
          ∧ (mainWithTokens fmt env flags tokens).2 = .exit 0)
    ∧ (flags.sendPushover = true → ∀ i,
        (∀ j b t, j < i →
          (expectedMessages (forecastTitle flags.city flags.days) s)[j]? = some (b, t) →
          env.sendMessage j (tokens.get (lit "pushover")) (tokens.get (lit "recipient")) b t
            = none) →
        (∃ b t, (expectedMessages (forecastTitle flags.city flags.days) s)[i]? = some (b, t)
          ∧ env.sendMessage i (tokens.get (lit "pushover")) (tokens.get (lit "recipient")) b t
            ≠ none) →
        sentMessages (mainWithTokens fmt env flags tokens).1
            = (expectedMessages (forecastTitle flags.city flags.days) s).take (i + 1)
          ∧ (mainWithTokens fmt env flags tokens).2 = .exit 1)
    ∧ (expectedMessages (forecastTitle flags.city flags.days) s).length = s.length
    ∧ (expectedMessages (forecastTitle flags.city flags.days) s)[0]?
        = s[0]?.map (fun v => (v, lit "Weather forecast for " ++ flags.city ++ lit " ("
            ++ lit (toString flags.days) ++ lit " day(s))"))
    ∧ (∀ i, 1 ≤ i → (expectedMessages (forecastTitle flags.city flags.days) s)[i]?
        = s[i]?.map (fun v => (v, []))) := by
  obtain ⟨url, hmain⟩ := mainWithTokens_of_forecast fmt env flags tokens ow cf s hnew hcf hf
  obtain ⟨first, others, rfl⟩ := List.exists_cons_of_ne_nil hs
  have hsent : ∀ evs : List Event, sentMessages (Event.httpGet url :: evs) = sentMessages evs :=
    fun evs => rfl
  rw [hmain]
  simp only [hsent, expectedMessages]
  refine ⟨?_, ?_, ?_, by simp, by simp [forecastTitle], ?_⟩
  · intro hoff
    exact (report_silent env flags _ _ first others hoff).1
  · intro hon hok
    have h0 := hok 0 first (forecastTitle flags.city flags.days) (by simp)
    obtain ⟨h1, h2⟩ := (report_sent env flags _ _ first others hon).2 h0
    have hrest := sendRest_all_ok env (tokens.get (lit "pushover"))
      (tokens.get (lit "recipient")) others 1 (by
        intro i v hv
        have := hok (i + 1) v [] (by simp [hv])
        rwa [show i + 1 = 1 + i by omega] at this)
    rw [h1, h2, hrest.1, hrest.2]
    exact ⟨rfl, rfl⟩
  · intro hon i hok hfail
    cases i with
    | zero =>
      obtain ⟨b, t, hbt, hne⟩ := hfail
      simp only [List.getElem?_cons_zero, Option.some.injEq, Prod.mk.injEq] at hbt
      obtain ⟨rfl, rfl⟩ := hbt
      cases hsend : env.sendMessage 0 (tokens.get (lit "pushover"))
          (tokens.get (lit "recipient")) first (forecastTitle flags.city flags.days) with
      | none => exact absurd hsend hne
      | some e =>
        obtain ⟨h1, h2⟩ := (report_sent env flags _ _ first others hon).1 e hsend
        rw [h1, h2]
        exact ⟨by simp, rfl⟩
    | succ i =>
      have h0 := hok 0 first (forecastTitle flags.city flags.days) (by omega) (by simp)
      obtain ⟨h1, h2⟩ := (report_sent env flags _ _ first others hon).2 h0
      have hrest := sendRest_fail env (tokens.get (lit "pushover"))
        (tokens.get (lit "recipient")) others 1 i (by
          intro j v hj hv
          have := hok (j + 1) v [] (by omega) (by simp [hv])
          rwa [show j + 1 = 1 + j by omega] at this) (by
          obtain ⟨b, t, hbt, hne⟩ := hfail
          simp only [List.getElem?_cons_succ, List.getElem?_map, Option.map_eq_some',
            Prod.mk.injEq] at hbt
          obtain ⟨v, hv, rfl, rfl⟩ := hbt
          refine ⟨v, hv, ?_⟩
          rwa [show i + 1 = 1 + i by omega] at hne)
      rw [h1, h2, hrest.1, hrest.2]
      exact ⟨by simp [List.map_take], rfl⟩
  · intro i hi
    obtain ⟨j, rfl⟩ : ∃ j, i = j + 1 := ⟨i - 1, by omega⟩
    simp

/-- C9, on a sample: city Paris, 2 days, the toggle on and a provider that accepts every
message: two messages, the first under the title, the second with no title. -/
theorem main_notifications_witness :
    sentMessages (mainWithTokens sampleFmt sampleEnv parisPushoverFlags onlyOpenweather).1
      = [(lit ("2024-01-01 \n12:00:00 | clear sky - h:80.5% - 15.33°C\n"
              ++ "12:00:00 | few clouds - h:80.5% - 15.33°C\n"
              ++ "15:00:00 | clear sky - h:79% - 16.00°C\n"),
          lit "Weather forecast for Paris (2 day(s))"),
         (lit "2024-01-02 \n00:00:00 | light rain - h:90% - 9.75°C\n", [])]
    ∧ sentMessages (mainWithTokens sampleFmt sampleEnv parisFlags onlyOpenweather).1 = []
    ∧ sentMessages (mainWithTokens sampleFmt refusingEnv parisPushoverFlags onlyOpenweather).1
      = [(lit ("2024-01-01 \n12:00:00 | clear sky - h:80.5% - 15.33°C\n"
              ++ "12:00:00 | few clouds - h:80.5% - 15.33°C\n"
              ++ "15:00:00 | clear sky - h:79% - 16.00°C\n"),
          lit "Weather forecast for Paris (2 day(s))")] :=
  ⟨((main_notifications sampleFmt sampleEnv parisPushoverFlags onlyOpenweather ⟨lit "key"⟩
    ⟨lit "Paris", 2⟩
    [lit ("2024-01-01 \n12:00:00 | clear sky - h:80.5% - 15.33°C\n"
          ++ "12:00:00 | few clouds - h:80.5% - 15.33°C\n"
          ++ "15:00:00 | clear sky - h:79% - 16.00°C\n"),
     lit "2024-01-02 \n00:00:00 | light rain - h:90% - 9.75°C\n"]
    (by decide) (by decide) (by decide) (by decide)).2.1 rfl (fun _ _ _ _ => rfl)).1.trans
    (by decide), by decide, by decide⟩

/-- C8, as stated, fails: with a credential map that holds "openweather" only, "pushover"
and "recipient" being absent, the orchestrator fetches the forecast, prints it and exits
with status 0. -/
theorem mainWithTokens_missing_pushover :
    onlyOpenweather.find (lit "pushover") = none
    ∧ onlyOpenweather.find (lit "recipient") = none
    ∧ fetched (mainWithTokens sampleFmt sampleEnv parisFlags onlyOpenweather).1 = true
    ∧ (mainWithTokens sampleFmt sampleEnv parisFlags onlyOpenweather).2 = .exit 0 := by
  refine ⟨by decide, by decide, by decide, by decide⟩

theorem fetched_mainWithTokens {F : Type} (fmt : FloatFmt F) (env : Env F) (flags : Flags)
    (tokens : GoMap) (cf : CityForecast) (hne : tokens.get (lit "openweather") ≠ [])
    (hcf : NewCityForecast flags.city flags.days = .ok cf) :
    fetched (mainWithTokens fmt env flags tokens).1 = true := by
  simp only [mainWithTokens, New, hne, if_false, hcf, Forecast]
  cases env.getJSON (APIEndpoint ++ lit "?q=" ++ cf.City ++ lit "&units=metric&appid="
      ++ tokens.get (lit "openweather")) with
  | error e => rfl
  | ok w =>
    simp only
    cases formatForecast fmt env.maxCap w cf.Days <;> rfl

/-- C8, amended: for every credential map in which the key "openweather" is absent or
maps to the empty string, the orchestrator fails fast: it logs the error
"openweather: empty token" and exits with status 1, and nothing is fetched; whenever the
"openweather" token is not empty and the request is valid, the forecast is fetched,
whatever the map holds under "pushover" and "recipient"; and `New(token)` returns
`ErrEmptyToken` if and only if the token is empty. -/
theorem mainWithTokens_empty_openweather {F : Type} (fmt : FloatFmt F) (env : Env F)
    (flags : Flags) (tokens : GoMap)
    (h : tokens.find (lit "openweather") = none ∨ tokens.find (lit "openweather") = some []) :
    mainWithTokens fmt env flags tokens
        = ([.logError (lit "Error when creating an OpenWeather app : "
            ++ lit "openweather: empty token" ++ lit "\n")], .exit 1)
    ∧ fetched (mainWithTokens fmt env flags tokens).1 = false
    ∧ (∀ (others : GoMap) (cf : CityForecast), others.get (lit "openweather") ≠ [] →
        NewCityForecast flags.city flags.days = .ok cf →
          fetched (mainWithTokens fmt env flags others).1 = true)
    ∧ (∀ token : GoString, New token = .err .ErrEmptyToken ↔ token = []) := by
  have hget : tokens.get (lit "openweather") = [] := by
    rcases h with h | h <;> simp [GoMap.get, h]
  have hmain : mainWithTokens fmt env flags tokens
      = ([.logError (lit "Error when creating an OpenWeather app : "
          ++ lit "openweather: empty token" ++ lit "\n")], .exit 1) := by
    simp only [mainWithTokens, hget, New, if_true]
    rfl
  refine ⟨hmain, ?_, ?_, ?_⟩
  · rw [hmain]
    rfl
  · intro others cf hne hcf
    exact fetched_mainWithTokens fmt env flags others cf hne hcf
  · intro token
    unfold New
    by_cases ht : token = []
    · simp [ht]
    · simp [ht]

/-- C8, amended, on samples: the empty credential map, and a map whose "openweather"
token is the empty string. -/
theorem mainWithTokens_empty_openweather_witness :
    fetched (mainWithTokens sampleFmt sampleEnv parisFlags []).1 = false
    ∧ (mainWithTokens sampleFmt sampleEnv parisFlags
        [(lit "pushover", lit "app"), (lit "openweather", [])]).2 = .exit 1 :=
  ⟨(mainWithTokens_empty_openweather sampleFmt sampleEnv parisFlags []
      (Or.inl (by decide))).2.1,
   congrArg Prod.snd (mainWithTokens_empty_openweather sampleFmt sampleEnv parisFlags
      [(lit "pushover", lit "app"), (lit "openweather", [])] (Or.inr (by decide))).1⟩


end Metego
